import Mathlib

/-
Verification development for the label-vision extraction pipeline
(src/backend/services/*.py).  Python strings are modelled as `List Char`;
Python `None`-able values as `Option`; Python dicts holding JSON values as
association lists over a `Json` inductive; floats that only ever carry
exact decimal constants as `ℚ`.  The two places where IEEE-754 double
arithmetic is observable (`int(h * 0.40)` / `int(h * 0.60)` in the region
splitter) are modelled exactly, by round-to-nearest-even rational
arithmetic on the binary64 grid.
-/

/-! ## Python character/string primitives -/

/-- Whitespace as recognised by Python's `str.strip` and `re`'s `\s`
(ASCII part; the exotic Unicode whitespace characters are not used by the
repository's data and are omitted). -/
def pyIsSpace (c : Char) : Bool :=
  c == ' ' || c == '\t' || c == '\n' || c == '\r' || c == '\x0b' || c == '\x0c'

/-- ASCII decimal digit, Python's `[0-9]`. -/
def pyIsDigit (c : Char) : Bool := '0' ≤ c && c ≤ '9'

/-- ASCII letter, Python's `[A-Za-z]` (the repository's regexes and case
tests only meet ASCII text; Unicode letters are not modelled). -/
def pyIsAlpha (c : Char) : Bool := ('a' ≤ c && c ≤ 'z') || ('A' ≤ c && c ≤ 'Z')

/-- ASCII alphanumeric, Python's `[a-zA-Z0-9]`. -/
def pyIsAlnum (c : Char) : Bool := pyIsAlpha c || pyIsDigit c

/-- ASCII lower-casing, Python's `str.lower` on ASCII input. -/
def pyToLower (c : Char) : Char :=
  if 'A' ≤ c ∧ c ≤ 'Z' then Char.ofNat (c.toNat + 32) else c

/-- ASCII upper-casing, Python's `str.upper` on ASCII input. -/
def pyToUpper (c : Char) : Char :=
  if 'a' ≤ c ∧ c ≤ 'z' then Char.ofNat (c.toNat - 32) else c

/-- Python `s.strip()`: remove leading and trailing whitespace. -/
def pyStrip (l : List Char) : List Char :=
  ((l.dropWhile pyIsSpace).reverse.dropWhile pyIsSpace).reverse

/-- Python `s.lower()`. -/
def pyLower (l : List Char) : List Char := l.map pyToLower

/-- Python `s.upper()`. -/
def pyUpper (l : List Char) : List Char := l.map pyToUpper

/-- Python `needle in hay` on strings: contiguous substring test. -/
def pySubstr : List Char → List Char → Bool
  | n, [] => n.isEmpty
  | n, c :: t => n.isPrefixOf (c :: t) || pySubstr n t

/-- Python `s.split(sep)` for a one-character separator: keeps empty
pieces, `"".split(c) = [""]`. -/
def splitOnChar (sep : Char) : List Char → List (List Char)
  | [] => [[]]
  | c :: rest =>
    match splitOnChar sep rest with
    | [] => if c = sep then [[], []] else [[c]]
    | h :: t => if c = sep then [] :: h :: t else (c :: h) :: t

/-- Python `str.isupper()` restricted to ASCII: at least one letter, and
no lower-case letter. -/
def pyIsUpper (l : List Char) : Bool :=
  l.any pyIsAlpha && l.all (fun c => !('a' ≤ c && c ≤ 'z'))

/-- Python `str.split()` with no argument: split on whitespace runs,
dropping empty fields. -/
def pySplitWs (l : List Char) : List (List Char) :=
  (splitOnChar ' ' (l.map (fun c => if pyIsSpace c then ' ' else c))).filter
    (fun p => p ≠ [])

/-- String to character-list coercion used throughout for readability. -/
def str (s : String) : List Char := s.toList

/-! ## Text cleaner (src/backend/services/text_cleaner.py) -/

namespace TextCleaner

/-- Matcher for `SYMBOL_ONLY_PATTERN = re.compile(r'^[^a-zA-Z0-9]+$')`:
true iff the line is non-empty and has no alphanumeric character. -/
def symbolOnly (l : List Char) : Bool :=
  !l.isEmpty && l.all (fun c => !pyIsAlnum c)

/-- The substitution `EXTRA_WHITESPACE_PATTERN.sub(' ', line)` for
`re.compile(r'\s+')`: every maximal whitespace run becomes one space. -/
def collapseWs : List Char → List Char
  | [] => []
  | [c] => [if pyIsSpace c then ' ' else c]
  | c1 :: c2 :: rest =>
    if pyIsSpace c1 && pyIsSpace c2 then collapseWs (c2 :: rest)
    else (if pyIsSpace c1 then ' ' else c1) :: collapseWs (c2 :: rest)

/-- Per-line body of the `for line in lines` loop of `clean_block`:
strip, drop empty / symbol-only / too-short lines, collapse whitespace. -/
def cleanLine (l : List Char) : Option (List Char) :=
  if (pyStrip l).isEmpty then none
  else if symbolOnly (pyStrip l) then none
  else if (pyStrip l).length < 2 then none
  else some (collapseWs (pyStrip l))

/-- `TextCleaner.clean_block`: split on newlines, clean each line, join
survivors with newlines (the `if not raw_text: return ""` guard is the
first branch). -/
def clean_block (raw_text : List Char) : List Char :=
  if raw_text.isEmpty then []
  else List.intercalate [ '\n' ] ((splitOnChar '\n' raw_text).filterMap cleanLine)

/-! Lemmas towards idempotence of `clean_block` (claim C10). -/

/-- Image of one character under whitespace normalisation. -/
def mapWs (c : Char) : Char := if pyIsSpace c then ' ' else c

theorem pyIsSpace_mapWs (c : Char) : pyIsSpace (mapWs c) = pyIsSpace c := by
  unfold mapWs
  by_cases h : pyIsSpace c = true <;> simp [h]
  rfl

/-- Whitespace characters are never alphanumeric. -/
theorem space_not_alnum {c : Char} (h : pyIsSpace c = true) : pyIsAlnum c = false := by
  simp only [pyIsSpace, Bool.or_eq_true, beq_iff_eq] at h
  rcases h with ((((h | h) | h) | h) | h) | h <;> subst h <;> rfl

/-- Head shape of `collapseWs`. -/
theorem collapseWs_cons (c : Char) (rest : List Char) :
    ∃ t, collapseWs (c :: rest) = mapWs c :: t := by
  induction rest generalizing c with
  | nil => exact ⟨[], rfl⟩
  | cons c2 r ih =>
    by_cases h1 : pyIsSpace c = true
    · by_cases h2 : pyIsSpace c2 = true
      · obtain ⟨t, ht⟩ := ih c2
        refine ⟨t, ?_⟩
        rw [show mapWs c = mapWs c2 by simp [mapWs, h1, h2]]
        simpa [collapseWs, h1, h2] using ht
      · exact ⟨collapseWs (c2 :: r), by simp [collapseWs, mapWs, h1, h2]⟩
    · exact ⟨collapseWs (c2 :: r), by simp [collapseWs, mapWs, h1]⟩

theorem collapseWs_ne_nil (c : Char) (rest : List Char) :
    collapseWs (c :: rest) ≠ [] := by
  obtain ⟨t, ht⟩ := collapseWs_cons c rest
  simp [ht]

/-- Every character surviving `collapseWs` is the normalisation of an
input character. -/
theorem collapseWs_mem {l : List Char} {x : Char} (hx : x ∈ collapseWs l) :
    ∃ c ∈ l, x = mapWs c := by
  induction l using collapseWs.induct with
  | case1 => simp [collapseWs] at hx
  | case2 d => exact ⟨d, by simp, by simpa [collapseWs, mapWs] using hx⟩
  | case3 c1 c2 rest h ih =>
    rw [collapseWs, if_pos h] at hx
    obtain ⟨c, hc, hcx⟩ := ih hx
    exact ⟨c, by simp [List.mem_cons] at hc ⊢; tauto, hcx⟩
  | case4 c1 c2 rest h ih =>
    rw [collapseWs, if_neg h] at hx
    rcases List.mem_cons.mp hx with hx | hx
    · exact ⟨c1, by simp, by simpa [mapWs] using hx⟩
    · obtain ⟨c, hc, hcx⟩ := ih hx
      exact ⟨c, by simp [List.mem_cons] at hc ⊢; tauto, hcx⟩

/-- No two adjacent whitespace characters survive `collapseWs`. -/
theorem collapseWs_chain (l : List Char) :
    List.Chain' (fun a b => ¬(pyIsSpace a = true ∧ pyIsSpace b = true)) (collapseWs l) := by
  induction l using collapseWs.induct with
  | case1 => simp [collapseWs]
  | case2 d => simp [collapseWs]
  | case3 c1 c2 rest h ih => rw [collapseWs, if_pos h]; exact ih
  | case4 c1 c2 rest h ih =>
    rw [collapseWs, if_neg h]
    obtain ⟨t, ht⟩ := collapseWs_cons c2 rest
    rw [ht]
    rw [ht] at ih
    refine List.Chain'.cons ?_ ih
    show ¬(pyIsSpace (mapWs c1) = true ∧ pyIsSpace (mapWs c2) = true)
    rw [pyIsSpace_mapWs, pyIsSpace_mapWs]
    intro hcon
    exact h (by simp [hcon.1, hcon.2])

/-- On an already-normalised list (all whitespace is a single space and
no two adjacent), `collapseWs` is the identity. -/
theorem collapseWs_fixed {l : List Char}
    (hsp : ∀ c ∈ l, pyIsSpace c = true → c = ' ')
    (hch : List.Chain' (fun a b => ¬(pyIsSpace a = true ∧ pyIsSpace b = true)) l) :
    collapseWs l = l := by
  induction l using collapseWs.induct with
  | case1 => rfl
  | case2 d =>
    show [mapWs d] = [d]
    by_cases hd : pyIsSpace d = true
    · simp [mapWs, hd, hsp d (by simp) hd]
    · simp [mapWs, hd]
  | case3 c1 c2 rest h ih =>
    exfalso
    rw [List.chain'_cons] at hch
    simp only [Bool.and_eq_true] at h
    exact hch.1 ⟨h.1, h.2⟩
  | case4 c1 c2 rest h ih =>
    rw [collapseWs, if_neg h]
    have h1 : (if pyIsSpace c1 then ' ' else c1) = c1 := by
      by_cases hc1 : pyIsSpace c1 = true
      · simp [hc1, hsp c1 (by simp) hc1]
      · simp [hc1]
    rw [h1, ih (fun c hc hw => hsp c (List.mem_cons_of_mem _ hc) hw)
      (List.chain'_cons.mp hch).2]

theorem collapseWs_getLast? (l : List Char) :
    (collapseWs l).getLast? = l.getLast?.map mapWs := by
  induction l using collapseWs.induct with
  | case1 => rfl
  | case2 d => rfl
  | case3 c1 c2 rest h ih =>
    rw [collapseWs, if_pos h, ih]
    simp [List.getLast?_cons_cons]
  | case4 c1 c2 rest h ih =>
    rw [collapseWs, if_neg h]
    obtain ⟨t, ht⟩ := collapseWs_cons c2 rest
    rw [show ((if pyIsSpace c1 then ' ' else c1) :: collapseWs (c2 :: rest)).getLast?
        = (collapseWs (c2 :: rest)).getLast? from by rw [ht]; simp [List.getLast?_cons_cons]]
    rw [ih]
    simp [List.getLast?_cons_cons]

theorem collapseWs_countP (l : List Char) :
    (collapseWs l).countP (fun c => !pyIsSpace c) = l.countP (fun c => !pyIsSpace c) := by
  induction l using collapseWs.induct with
  | case1 => rfl
  | case2 d =>
    show List.countP _ [mapWs d] = _
    rw [List.countP_singleton, List.countP_singleton]
    simp [pyIsSpace_mapWs]
  | case3 c1 c2 rest h ih =>
    rw [collapseWs, if_pos h, ih]
    simp only [List.countP_cons]
    simp only [Bool.and_eq_true] at h
    simp [h.1]
  | case4 c1 c2 rest h ih =>
    rw [collapseWs, if_neg h]
    simp only [List.countP_cons, ih]
    rw [show (if pyIsSpace c1 = true then ' ' else c1) = mapWs c1 from rfl, pyIsSpace_mapWs]

end TextCleaner

theorem dropWhile_head_not {p : Char → Bool} {l : List Char} {x : Char} {xs : List Char}
    (h : l.dropWhile p = x :: xs) : p x = false := by
  induction l generalizing x xs with
  | nil => simp [List.dropWhile] at h
  | cons a t ih =>
    rw [List.dropWhile_cons] at h
    by_cases ha : p a = true
    · rw [if_pos ha] at h; exact ih h
    · rw [if_neg ha] at h
      cases h
      simpa using ha

theorem dropWhile_getLast? {p : Char → Bool} {l : List Char}
    (h : l.dropWhile p ≠ []) : (l.dropWhile p).getLast? = l.getLast? := by
  induction l with
  | nil => simp at h
  | cons a t ih =>
    rw [List.dropWhile_cons]
    by_cases ha : p a = true
    · rw [if_pos ha]
      rw [List.dropWhile_cons, if_pos ha] at h
      have ht : t ≠ [] := by rintro rfl; simp [List.dropWhile] at h
      rw [ih h]
      obtain ⟨b, u, rfl⟩ := List.exists_cons_of_ne_nil ht
      simp [List.getLast?_cons_cons]
    · rw [if_neg ha]

/-- Strip output starts with a non-whitespace character. -/
theorem pyStrip_head_not_space {l : List Char} {a : Char} {t : List Char}
    (h : pyStrip l = a :: t) : pyIsSpace a = false := by
  unfold pyStrip at h
  set w := l.dropWhile pyIsSpace with hw
  set z := w.reverse.dropWhile pyIsSpace with hz
  have hzne : z ≠ [] := by rintro hzz; rw [hzz] at h; simp at h
  have hlast : z.getLast? = w.reverse.getLast? := dropWhile_getLast? hzne
  have hwne : w ≠ [] := by
    rintro hww
    rw [hww] at hz
    simp [List.dropWhile] at hz
    exact hzne hz
  obtain ⟨c, u, hcu⟩ := List.exists_cons_of_ne_nil hwne
  have hc : pyIsSpace c = false := by
    apply dropWhile_head_not (p := pyIsSpace) (l := l)
    rw [← hw, hcu]
  have hrev : w.reverse.getLast? = some c := by
    rw [hcu]; simp
  have hza : z.getLast? = some a := by
    have : z.reverse = a :: t := h
    have h2 : z = (a :: t).reverse := by rw [← this]; simp
    rw [h2]
    simp
  rw [hlast, hrev] at hza
  cases hza
  exact hc

/-- Strip output ends with a non-whitespace character. -/
theorem pyStrip_getLast_not_space {l : List Char} {b : Char}
    (h : (pyStrip l).getLast? = some b) : pyIsSpace b = false := by
  unfold pyStrip at h
  set z := (l.dropWhile pyIsSpace).reverse.dropWhile pyIsSpace with hz
  have : z.reverse.getLast? = z.head? := by
    cases z with
    | nil => rfl
    | cons c u => simp
  rw [this] at h
  cases hzz : z with
  | nil => rw [hzz] at h; simp at h
  | cons c u =>
    rw [hzz] at h
    simp at h
    subst h
    exact dropWhile_head_not (l := (l.dropWhile pyIsSpace).reverse) (by rw [← hz, hzz])

theorem mem_of_getLast?_eq {l : List Char} {a : Char} (h : l.getLast? = some a) : a ∈ l := by
  induction l with
  | nil => simp at h
  | cons b t ih =>
    cases t with
    | nil => simp at h; simp [h]
    | cons c u =>
      rw [List.getLast?_cons_cons] at h
      exact List.mem_cons_of_mem _ (ih h)

/-- Stripping is the identity on a list whose two ends are not whitespace. -/
theorem pyStrip_noop {l : List Char}
    (hhead : ∀ a t, l = a :: t → pyIsSpace a = false)
    (hlast : ∀ b, l.getLast? = some b → pyIsSpace b = false) :
    pyStrip l = l := by
  cases l with
  | nil => rfl
  | cons a t =>
    unfold pyStrip
    rw [List.dropWhile_cons, if_neg (by simp [hhead a t rfl])]
    cases hgl : (a :: t).getLast? with
    | none => simp at hgl
    | some b =>
      obtain ⟨c, u, hcu⟩ := List.exists_cons_of_ne_nil
        (show (a :: t).reverse ≠ [] by simp)
      have hc : c = b := by
        have := List.head?_reverse (a :: t)
        rw [hcu, hgl] at this
        simpa using this
      rw [hcu, List.dropWhile_cons, if_neg (by simp [hc ▸ hlast b hgl]), ← hcu]
      simp

namespace TextCleaner

theorem mapWs_not_space {c : Char} (h : pyIsSpace c = false) : mapWs c = c := by
  unfold mapWs; rw [h]; simp

/-- Non-whitespace characters survive `collapseWs`. -/
theorem mem_collapseWs_of_not_space {l : List Char} {c : Char}
    (hc : c ∈ l) (hw : pyIsSpace c = false) : c ∈ collapseWs l := by
  induction l using collapseWs.induct with
  | case1 => simp at hc
  | case2 d =>
    rcases List.mem_singleton.mp hc with rfl
    show c ∈ [mapWs c]
    simp [mapWs_not_space hw]
  | case3 c1 c2 rest h ih =>
    rw [collapseWs, if_pos h]
    rcases List.mem_cons.mp hc with rfl | hc
    · exfalso
      simp only [Bool.and_eq_true] at h
      rw [h.1] at hw
      exact absurd hw (by simp)
    · exact ih hc
  | case4 c1 c2 rest h ih =>
    rw [collapseWs, if_neg h]
    rcases List.mem_cons.mp hc with rfl | hc
    · rw [show (if pyIsSpace c = true then ' ' else c) = c from by rw [hw]; simp]
      exact List.mem_cons_self _ _
    · exact List.mem_cons_of_mem _ (ih hc)

/-- A line produced by `cleanLine` is a fixed point of `cleanLine` and
contains no newline character. -/
theorem cleanLine_fixed {l m : List Char} (h : cleanLine l = some m) :
    cleanLine m = some m ∧ m ≠ [] ∧ '\n' ∉ m := by
  unfold cleanLine at h
  by_cases h1 : (pyStrip l).isEmpty = true
  · rw [if_pos h1] at h; exact absurd h (by simp)
  rw [if_neg h1] at h
  by_cases h2 : symbolOnly (pyStrip l) = true
  · rw [if_pos h2] at h; exact absurd h (by simp)
  rw [if_neg h2] at h
  by_cases h3 : (pyStrip l).length < 2
  · rw [if_pos h3] at h; exact absurd h (by simp)
  rw [if_neg h3] at h
  have hm : m = collapseWs (pyStrip l) := by cases h; rfl
  obtain ⟨a, t, hat⟩ := List.exists_cons_of_ne_nil (by simpa using h1)
  have ha : pyIsSpace a = false := pyStrip_head_not_space hat
  cases hgl : (pyStrip l).getLast? with
  | none => rw [List.getLast?_eq_none_iff] at hgl; rw [hgl] at hat; simp at hat
  | some b =>
  have hb : pyIsSpace b = false := pyStrip_getLast_not_space hgl
  obtain ⟨t', ht'⟩ := collapseWs_cons a t
  have hmhead : m = a :: t' := by
    rw [hm, hat, ht', mapWs_not_space ha]
  have hmlast : m.getLast? = some b := by
    rw [hm, collapseWs_getLast?, hgl]
    simp [mapWs_not_space hb]
  have hsp : ∀ c ∈ m, pyIsSpace c = true → c = ' ' := by
    intro c hcmem hcw
    obtain ⟨d, _, rfl⟩ := collapseWs_mem (hm ▸ hcmem)
    by_cases hd : pyIsSpace d = true
    · simp [mapWs, hd]
    · rw [pyIsSpace_mapWs] at hcw; exact absurd hcw hd
  have hnl : '\n' ∉ m := by
    intro hmem
    have := hsp '\n' hmem rfl
    simp at this
  have halnum : ∃ c ∈ m, pyIsAlnum c = true := by
    have hex : ¬(∀ c ∈ pyStrip l, pyIsAlnum c = false) := by
      intro hall
      apply absurd h2
      simp only [not_not, symbolOnly, Bool.and_eq_true, List.all_eq_true]
      refine ⟨by simpa using h1, fun c hc => by simp [hall c hc]⟩
    push_neg at hex
    obtain ⟨c, hcmem, hcal⟩ := hex
    have hcal' : pyIsAlnum c = true := by simpa using hcal
    have hcns : pyIsSpace c = false := by
      by_contra hcon
      exact absurd (space_not_alnum (by simpa using hcon)) (by simp [hcal'])
    exact ⟨c, hm ▸ mem_collapseWs_of_not_space hcmem hcns, hcal'⟩
  have hsym : symbolOnly m = false := by
    obtain ⟨c, hcmem, hcal⟩ := halnum
    simp only [symbolOnly, Bool.and_eq_false_iff]
    right
    simp only [List.all_eq_false]
    exact ⟨c, hcmem, by simp [hcal]⟩
  have hlen : 2 ≤ m.length := by
    have hcount : m.countP (fun c => !pyIsSpace c) = (pyStrip l).countP (fun c => !pyIsSpace c) := by
      rw [hm]; exact collapseWs_countP _
    have h2le : 2 ≤ (pyStrip l).countP (fun c => !pyIsSpace c) := by
      rw [hat] at hgl h3 ⊢
      have ht : t ≠ [] := by rintro rfl; simp at h3
      have hbt : b ∈ t := by
        apply mem_of_getLast?_eq
        rw [← hgl]
        obtain ⟨c2, u, rfl⟩ := List.exists_cons_of_ne_nil ht
        rw [List.getLast?_cons_cons]
      have hpos : 0 < t.countP (fun c => !pyIsSpace c) :=
        List.countP_pos_iff.mpr ⟨b, hbt, by simp [hb]⟩
      rw [List.countP_cons]
      have hae : ((fun c => !pyIsSpace c) a = true) := by simp [ha]
      rw [if_pos hae]
      omega
    have := List.countP_le_length (l := m) (fun c => !pyIsSpace c)
    omega
  have hstrip : pyStrip m = m := by
    apply pyStrip_noop
    · intro a' t'' h'
      rw [hmhead] at h'
      cases h'
      exact ha
    · intro b' h'
      rw [hmlast] at h'
      cases h'
      exact hb
  have hcoll : collapseWs m = m :=
    collapseWs_fixed hsp (hm ▸ collapseWs_chain (pyStrip l))
  refine ⟨?_, by simp [hmhead], hnl⟩
  unfold cleanLine
  rw [hstrip, if_neg (by simp [hmhead]), if_neg (by simp [hsym]),
    if_neg (by omega), hcoll]

end TextCleaner

theorem splitOnChar_ne_nil (sep : Char) (l : List Char) : splitOnChar sep l ≠ [] := by
  cases l with
  | nil => simp [splitOnChar]
  | cons c rest =>
    rw [splitOnChar]
    rcases h : splitOnChar sep rest with _ | ⟨hd, tl⟩ <;> by_cases hc : c = sep <;>
      simp [hc]

theorem splitOnChar_no_sep {sep : Char} {l : List Char} (h : sep ∉ l) :
    splitOnChar sep l = [l] := by
  induction l with
  | nil => rfl
  | cons c rest ih =>
    have hc : c ≠ sep := by rintro rfl; exact h (List.mem_cons_self _ _)
    have hrest : sep ∉ rest := fun hm => h (List.mem_cons_of_mem _ hm)
    rw [splitOnChar, ih hrest]
    simp [hc]

theorem splitOnChar_append {sep : Char} {m z : List Char} (h : sep ∉ m) :
    splitOnChar sep (m ++ sep :: z) = m :: splitOnChar sep z := by
  induction m with
  | nil =>
    simp only [List.nil_append]
    rw [splitOnChar]
    rcases hz : splitOnChar sep z with _ | ⟨hd, tl⟩
    · exact absurd hz (splitOnChar_ne_nil sep z)
    · simp
  | cons c rest ih =>
    have hc : c ≠ sep := by rintro rfl; exact h (List.mem_cons_self _ _)
    have hrest : sep ∉ rest := fun hm => h (List.mem_cons_of_mem _ hm)
    rw [List.cons_append, splitOnChar, ih hrest]
    simp [hc]

theorem intercalate_split {sep : Char} {ms : List (List Char)} (hne : ms ≠ [])
    (h : ∀ m ∈ ms, sep ∉ m) :
    splitOnChar sep (List.intercalate [sep] ms) = ms := by
  induction ms with
  | nil => exact absurd rfl hne
  | cons m rest ih =>
    cases rest with
    | nil =>
      rw [show List.intercalate [sep] [m] = m by simp [List.intercalate]]
      exact splitOnChar_no_sep (h m (List.mem_cons_self _ _))
    | cons n rest2 =>
      have hstep : List.intercalate [sep] (m :: n :: rest2)
          = m ++ sep :: List.intercalate [sep] (n :: rest2) := by
        simp [List.intercalate, List.intersperse]
      rw [hstep, splitOnChar_append (h m (List.mem_cons_self _ _)),
        ih (by simp) (fun x hx => h x (List.mem_cons_of_mem _ hx))]

namespace TextCleaner

theorem filterMap_cleanLine_fixed {ms : List (List Char)}
    (h : ∀ m ∈ ms, cleanLine m = some m) : ms.filterMap cleanLine = ms := by
  induction ms with
  | nil => rfl
  | cons m rest ih =>
    rw [List.filterMap_cons, h m (List.mem_cons_self _ _),
      ih (fun x hx => h x (List.mem_cons_of_mem _ hx))]

/-- C10: `TextCleaner.clean_block` is idempotent -- a second cleaning
pass removes and rewrites nothing. -/
theorem clean_block_idempotent (raw_text : List Char) :
    clean_block (clean_block raw_text) = clean_block raw_text := by
  by_cases hraw : raw_text.isEmpty = true
  · have hinner : clean_block raw_text = [] := by rw [clean_block, if_pos hraw]
    rw [hinner]
    rfl
  have hinner : clean_block raw_text
      = List.intercalate [ '\n' ] ((splitOnChar '\n' raw_text).filterMap cleanLine) := by
    rw [clean_block, if_neg hraw]
  obtain ⟨ms, hms⟩ : ∃ ms, (splitOnChar '\n' raw_text).filterMap cleanLine = ms := ⟨_, rfl⟩
  rw [hms] at hinner
  rw [hinner]
  have hfix : ∀ m ∈ ms, cleanLine m = some m ∧ m ≠ [] ∧ '\n' ∉ m := by
    intro m hm
    rw [← hms] at hm
    obtain ⟨l, _, hl⟩ := List.mem_filterMap.mp hm
    exact cleanLine_fixed hl
  cases ms with
  | nil => rfl
  | cons m0 rest =>
    have hne : List.intercalate [ '\n' ] (m0 :: rest) ≠ [] := by
      have hm0 : m0 ≠ [] := (hfix m0 (List.mem_cons_self _ _)).2.1
      cases rest with
      | nil => simpa [List.intercalate] using hm0
      | cons n rest2 =>
        rw [show List.intercalate [ '\n' ] (m0 :: n :: rest2)
            = m0 ++ '\n' :: List.intercalate [ '\n' ] (n :: rest2) by
          simp [List.intercalate, List.intersperse]]
        simp
    rw [clean_block, if_neg (by simpa using hne)]
    rw [intercalate_split (by simp) (fun m hm => (hfix m hm).2.2),
      filterMap_cleanLine_fixed (fun m hm => (hfix m hm).1)]

end TextCleaner

/-! ## Region splitter (src/backend/services/region_splitter.py) -/

namespace RegionSplitter

/-- Fuel-driven binary logarithm (structural recursion so that concrete
witnesses evaluate in the kernel): `lg2F fuel n = Nat.log2 n` whenever
`n ≤ fuel`. -/
def lg2F : ℕ → ℕ → ℕ
  | 0, _ => 0
  | fuel + 1, n => if n < 2 then 0 else lg2F fuel (n / 2) + 1

def lg2 (n : ℕ) : ℕ := lg2F n n

theorem lg2F_spec : ∀ fuel n, 1 ≤ n → n ≤ fuel →
    2 ^ lg2F fuel n ≤ n ∧ n < 2 ^ (lg2F fuel n + 1) := by
  intro fuel
  induction fuel with
  | zero => intro n h1 h2; omega
  | succ f ih =>
    intro n h1 h2
    rw [lg2F]
    by_cases hn : n < 2
    · rw [if_pos hn]; simp; omega
    · rw [if_neg hn]
      have hrec := ih (n / 2) (by omega) (by omega)
      rw [pow_succ, pow_succ]
      omega

theorem lg2_spec {n : ℕ} (h : 1 ≤ n) : 2 ^ lg2 n ≤ n ∧ n < 2 ^ (lg2 n + 1) :=
  lg2F_spec n n h le_rfl

/-- Round `n / d` to the nearest integer, ties to even (the IEEE-754
default rounding applied to the scaled mantissa). -/
def halfEvenRound (n d : ℕ) : ℕ :=
  if 2 * (n % d) < d then n / d
  else if 2 * (n % d) > d then n / d + 1
  else if n / d % 2 = 0 then n / d else n / d + 1

theorem halfEvenRound_bounds {n d : ℕ} (hd : 0 < d) :
    2 * halfEvenRound n d * d ≤ 2 * n + d ∧ 2 * n ≤ 2 * halfEvenRound n d * d + d := by
  obtain ⟨q, r, hn, hr⟩ : ∃ q r, n = d * q + r ∧ r < d :=
    ⟨n / d, n % d, (Nat.div_add_mod n d).symm, Nat.mod_lt _ hd⟩
  have hq : n / d = q := by
    rw [hn, Nat.mul_add_div hd, Nat.div_eq_of_lt hr]
    omega
  have hrm : n % d = r := by
    rw [hn, Nat.mul_add_mod, Nat.mod_eq_of_lt hr]
  rw [halfEvenRound, hq, hrm, hn]
  by_cases h1 : 2 * r < d
  · rw [if_pos h1]; constructor <;> [linarith ; linarith]
  rw [if_neg h1]
  by_cases h2 : 2 * r > d
  · rw [if_pos h2]; constructor <;> [nlinarith ; nlinarith]
  rw [if_neg h2]
  by_cases h3 : q % 2 = 0
  · rw [if_pos h3]; constructor <;> [linarith ; linarith]
  · rw [if_neg h3]; constructor <;> [nlinarith ; nlinarith]

theorem halfEvenRound_ge_div {n d : ℕ} : n / d ≤ halfEvenRound n d := by
  rw [halfEvenRound]
  by_cases h1 : 2 * (n % d) < d
  · rw [if_pos h1]
  rw [if_neg h1]
  by_cases h2 : 2 * (n % d) > d
  · rw [if_pos h2]; omega
  rw [if_neg h2]
  by_cases h3 : n / d % 2 = 0
  · rw [if_pos h3]
  · rw [if_neg h3]; omega

/-- Binary64 value of the Python literal `0.40`: `f64of040 / 2 ^ 53`.
`0.40 * 2^53 = 3602879701896396.8` rounds to this odd integer. -/
def f64of040 : ℕ := 3602879701896397

/-- Binary64 value of `1 - 0.40` as computed by the splitter
(`int(h * (1 - BACK_RATIO))` with `BACK_RATIO = 0.40`): the subtraction
`1 - 0.40` is exact in binary64 and equals the double nearest to `0.6`,
namely `f64of060 / 2 ^ 53`. -/
def f64of060 : ℕ := 5404319552844595

/-- `int(h * c)` where `h < 2^53` is an integer, `c = cNum / 2^53` is a
binary64 constant in `[1/4, 1)`, and the product is computed in binary64:
the exact product `h * cNum / 2^53` is rounded to 53 significant bits
(round-to-nearest, ties-to-even), then truncated to an integer. -/
def f64MulTrunc (h cNum : ℕ) : ℕ :=
  if h * cNum = 0 then 0
  else if lg2 (h * cNum) ≤ 105 then
    halfEvenRound (h * cNum * 2 ^ 52) (2 ^ lg2 (h * cNum)) / 2 ^ (105 - lg2 (h * cNum))
  else
    halfEvenRound (h * cNum * 2 ^ 52) (2 ^ lg2 (h * cNum)) * 2 ^ (lg2 (h * cNum) - 105)

/-- `RegionSplitter.split` on an image given as a list of pixel rows:
`front = image[0:int(h*0.40)]`, `back = image[int(h*0.60):h]`,
`middle = image[int(h*0.40):int(h*0.60)]`, `full = image`. -/
structure RegionSet (α : Type) where
  front_region : List α
  back_region : List α
  middle_region : List α
  full_image : List α
  front_end_y : ℕ
  back_start_y : ℕ

def split {α : Type} (image : List α) : RegionSet α :=
  let h := image.length
  let front_end := f64MulTrunc h f64of040
  let back_start := f64MulTrunc h f64of060
  { front_region := image.take front_end
    back_region := image.drop back_start
    middle_region := (image.take back_start).drop front_end
    full_image := image
    front_end_y := front_end
    back_start_y := back_start }

end RegionSplitter

namespace RegionSplitter

/-- Core rounding fact for the `0.40` constant: for realistic heights the
binary64 product truncates to `⌊2h/5⌋`. -/
theorem round_div_040 {h n L : ℕ} (hh : 1 ≤ h) (hb : h ≤ 2 ^ 51)
    (hn5 : 5 * n = (2 ^ 54 + 1) * h)
    (hP1 : 2 ^ L ≤ n) (_hP2 : n < 2 * 2 ^ L) :
    halfEvenRound (n * 2 ^ 52) (2 ^ L) / 2 ^ (105 - L) = 2 * h / 5 := by
  have hL : L ≤ 102 := by
    have hn103 : n < 2 ^ 103 := by omega
    by_contra hcon
    have : 2 ^ 103 ≤ 2 ^ L := Nat.pow_le_pow_right (by norm_num) (by omega)
    omega
  have hEP : 2 ^ (105 - L) * 2 ^ L = 2 ^ 105 := by
    rw [← pow_add]
    congr 1
    omega
  obtain ⟨P, hPdef⟩ : ∃ P, 2 ^ L = P := ⟨_, rfl⟩
  obtain ⟨E, hEdef⟩ : ∃ E, 2 ^ (105 - L) = E := ⟨_, rfl⟩
  rw [hPdef] at hEP hP1 ⊢
  rw [hEdef] at hEP ⊢
  have hPpos : 0 < P := by rw [← hPdef]; positivity
  obtain ⟨hB1, hB2⟩ := halfEvenRound_bounds (n := n * 2 ^ 52) (d := P) hPpos
  obtain ⟨m, hmdef⟩ : ∃ m, halfEvenRound (n * 2 ^ 52) P = m := ⟨_, rfl⟩
  rw [hmdef] at hB1 hB2 ⊢
  obtain ⟨K, r, hKr, hr5⟩ : ∃ K r, 5 * K + r = 2 * h ∧ r < 5 :=
    ⟨2 * h / 5, 2 * h % 5, by omega, by omega⟩
  have hgoal : 2 * h / 5 = K := by omega
  rw [hgoal]
  have hup : m < (K + 1) * E := by
    by_contra hcon
    push_neg at hcon
    have step1 : (K + 1) * 2 ^ 106 ≤ 2 * (n * 2 ^ 52) + P := by
      calc (K + 1) * 2 ^ 106 = 2 * ((K + 1) * E) * P := by
            rw [show 2 * ((K + 1) * E) * P = 2 * (K + 1) * (E * P) by ring, hEP]
            ring
        _ ≤ 2 * m * P := by gcongr
        _ ≤ 2 * (n * 2 ^ 52) + P := hB1
    omega
  have hlo : K * E ≤ m := by
    by_contra hcon
    push_neg at hcon
    have hm1 : m + 1 ≤ K * E := by omega
    have step1 : 2 * (n * 2 ^ 52) + P ≤ K * 2 ^ 106 := by
      calc 2 * (n * 2 ^ 52) + P ≤ 2 * m * P + P + P := by omega
        _ = (m + 1) * (2 * P) := by ring
        _ ≤ K * E * (2 * P) := by gcongr
        _ = K * 2 ^ 106 := by
            rw [show K * E * (2 * P) = 2 * K * (E * P) by ring, hEP]
            ring
    omega
  exact Nat.div_eq_of_lt_le hlo hup

/-- Core rounding fact for the `0.60` constant (`1 - 0.40` computed in
binary64): for realistic heights the product truncates to `⌊3h/5⌋`. -/
theorem round_div_060 {h n L : ℕ} (hh : 1 ≤ h) (hb : h ≤ 2 ^ 51)
    (hn5 : 5 * n + h = 3 * 2 ^ 53 * h)
    (hP1 : 2 ^ L ≤ n) (hP2 : n < 2 * 2 ^ L) :
    halfEvenRound (n * 2 ^ 52) (2 ^ L) / 2 ^ (105 - L) = 3 * h / 5 := by
  have hL : L ≤ 103 := by
    have hn104 : n < 2 ^ 104 := by omega
    by_contra hcon
    have : 2 ^ 104 ≤ 2 ^ L := Nat.pow_le_pow_right (by norm_num) (by omega)
    omega
  have hEP : 2 ^ (105 - L) * 2 ^ L = 2 ^ 105 := by
    rw [← pow_add]
    congr 1
    omega
  obtain ⟨P, hPdef⟩ : ∃ P, 2 ^ L = P := ⟨_, rfl⟩
  obtain ⟨E, hEdef⟩ : ∃ E, 2 ^ (105 - L) = E := ⟨_, rfl⟩
  rw [hPdef] at hEP hP1 hP2 ⊢
  rw [hEdef] at hEP ⊢
  have hPpos : 0 < P := by rw [← hPdef]; positivity
  obtain ⟨hB1, hB2⟩ := halfEvenRound_bounds (n := n * 2 ^ 52) (d := P) hPpos
  obtain ⟨m, hmdef⟩ : ∃ m, halfEvenRound (n * 2 ^ 52) P = m := ⟨_, rfl⟩
  rw [hmdef] at hB1 hB2 ⊢
  obtain ⟨K, r, hKr, hr5⟩ : ∃ K r, 5 * K + r = 3 * h ∧ r < 5 :=
    ⟨3 * h / 5, 3 * h % 5, by omega, by omega⟩
  have hgoal : 3 * h / 5 = K := by omega
  rw [hgoal]
  have hup : m < (K + 1) * E := by
    by_contra hcon
    push_neg at hcon
    have step1 : (K + 1) * 2 ^ 106 ≤ 2 * (n * 2 ^ 52) + P := by
      calc (K + 1) * 2 ^ 106 = 2 * ((K + 1) * E) * P := by
            rw [show 2 * ((K + 1) * E) * P = 2 * (K + 1) * (E * P) by ring, hEP]
            ring
        _ ≤ 2 * m * P := by gcongr
        _ ≤ 2 * (n * 2 ^ 52) + P := hB1
    omega
  have hlo : K * E ≤ m := by
    by_contra hcon
    push_neg at hcon
    have hm1 : m + 1 ≤ K * E := by omega
    have step1 : 2 * (n * 2 ^ 52) + P ≤ K * 2 ^ 106 := by
      calc 2 * (n * 2 ^ 52) + P ≤ 2 * m * P + P + P := by omega
        _ = (m + 1) * (2 * P) := by ring
        _ ≤ K * E * (2 * P) := by gcongr
        _ = K * 2 ^ 106 := by
            rw [show K * E * (2 * P) = 2 * K * (E * P) by ring, hEP]
            ring
    omega
  exact Nat.div_eq_of_lt_le hlo hup


theorem f64MulTrunc_040 {h : ℕ} (hb : h ≤ 2 ^ 51) :
    f64MulTrunc h f64of040 = 2 * h / 5 := by
  rcases Nat.eq_zero_or_pos h with rfl | hpos
  · rfl
  have hn0 : h * f64of040 ≠ 0 := by
    unfold f64of040
    positivity
  obtain ⟨hP1, hP2⟩ := lg2_spec (n := h * f64of040) (by omega)
  rw [f64MulTrunc, if_neg hn0, if_pos]
  · exact round_div_040 hpos hb (by unfold f64of040; ring) hP1 (by rw [pow_succ] at hP2; omega)
  · -- the exponent is small because the product is below 2 ^ 103
    by_contra hcon
    have h103 : h * f64of040 < 2 ^ 103 := by
      calc h * f64of040 ≤ 2 ^ 51 * f64of040 := by gcongr
        _ < 2 ^ 103 := by unfold f64of040; norm_num
    have : 2 ^ 106 ≤ 2 ^ lg2 (h * f64of040) := Nat.pow_le_pow_right (by norm_num) (by omega)
    omega

theorem f64MulTrunc_060 {h : ℕ} (hb : h ≤ 2 ^ 51) :
    f64MulTrunc h f64of060 = 3 * h / 5 := by
  rcases Nat.eq_zero_or_pos h with rfl | hpos
  · rfl
  have hn0 : h * f64of060 ≠ 0 := by
    unfold f64of060
    positivity
  obtain ⟨hP1, hP2⟩ := lg2_spec (n := h * f64of060) (by omega)
  rw [f64MulTrunc, if_neg hn0, if_pos]
  · exact round_div_060 hpos hb (by unfold f64of060; ring) hP1 (by rw [pow_succ] at hP2; omega)
  · by_contra hcon
    have h104 : h * f64of060 < 2 ^ 104 := by
      calc h * f64of060 ≤ 2 ^ 51 * f64of060 := by gcongr
        _ < 2 ^ 104 := by unfold f64of060; norm_num
    have : 2 ^ 106 ≤ 2 ^ lg2 (h * f64of060) := Nat.pow_le_pow_right (by norm_num) (by omega)
    omega

end RegionSplitter

namespace RegionSplitter

/-- C9: for every image of height `h` (any physically possible height,
`h ≤ 2 ^ 51`), the front region has exactly `⌊0.40 * h⌋` rows, the back
region has exactly `h - ⌊0.60 * h⌋` rows, and the full region is the
whole image. -/
theorem split_row_counts {α : Type} (image : List α) (hb : image.length ≤ 2 ^ 51) :
    (split image).front_region.length = 2 * image.length / 5 ∧
    (split image).back_region.length = image.length - 3 * image.length / 5 ∧
    (split image).full_image = image := by
  have h040 := f64MulTrunc_040 (h := image.length) hb
  have h060 := f64MulTrunc_060 (h := image.length) hb
  refine ⟨?_, ?_, rfl⟩
  · show (image.take (f64MulTrunc image.length f64of040)).length = _
    rw [List.length_take, h040]
    omega
  · show (image.drop (f64MulTrunc image.length f64of060)).length = _
    rw [List.length_drop, h060]

/-- Witness for C9 at a concrete ten-row image: the front and back
regions get 4 rows each. -/
theorem split_row_counts_witness :
    (split (List.replicate 10 Unit.unit)).front_region.length = 4 ∧
    (split (List.replicate 10 Unit.unit)).back_region.length = 10 - 6 := by
  have h := split_row_counts (List.replicate 10 Unit.unit) (by simp)
  rw [List.length_replicate] at h
  exact ⟨h.1, h.2.1⟩

end RegionSplitter

/-! ## Date extraction (src/backend/services/extract.py, extract_dates) -/

namespace ExtractDates

/-- A separator character: slash or dash. -/
def isSepChar (c : Char) : Bool := c == '/' || c == '-'

/-- A `[:\s]` character (the gap between keyword and date). -/
def isColonSpace (c : Char) : Bool := c == ':' || pyIsSpace c

/-- Case-insensitive literal match at the head of `u`: the regex literal
`kw` (given lower-case) under `re.IGNORECASE`. Returns the matched
length. -/
def matchLitCI (kw u : List Char) : Option ℕ :=
  if (u.take kw.length).map pyToLower = kw then some kw.length else none

/-- Two literals joined by `\s*` (e.g. `best\s*before`): the greedy
whitespace run between them is maximal, which is exact because the second
literal never starts with whitespace. -/
def matchKwGap (k1 k2 u : List Char) : Option ℕ :=
  match matchLitCI k1 u with
  | none => none
  | some n1 =>
    let rest := u.drop n1
    let w := (rest.takeWhile pyIsSpace).length
    match matchLitCI k2 (rest.drop w) with
    | none => none
    | some n2 => some (n1 + w + n2)

/-- Length matched by `[0-9]{1,2} sep [0-9]{1,2} sep [0-9]{2,4}` (sep = slash or dash) at the
head of `u` (with the regex engine's backtracking over the greedy digit
counters made explicit: a run of 3+ digits before a separator can never
match). -/
def numericDateLen (u : List Char) : Option ℕ :=
  let r1 := (u.takeWhile pyIsDigit).length
  if 1 ≤ r1 ∧ r1 ≤ 2 then
    match (u.drop r1).head? with
    | some c =>
      if isSepChar c then
        let u1 := u.drop (r1 + 1)
        let r2 := (u1.takeWhile pyIsDigit).length
        if 1 ≤ r2 ∧ r2 ≤ 2 then
          match (u1.drop r2).head? with
          | some c2 =>
            if isSepChar c2 then
              let u2 := u1.drop (r2 + 1)
              let r3 := (u2.takeWhile pyIsDigit).length
              if 2 ≤ r3 then some (r1 + 1 + r2 + 1 + min r3 4) else none
            else none
          | none => none
        else none
      else none
    | none => none
  else none

/-- Length matched by `[A-Za-z]+\s+[0-9]{4}` at the head of `u` (greedy
maximal runs are exact because the three character classes are
disjoint). -/
def textualDateLen (u : List Char) : Option ℕ :=
  let a := (u.takeWhile pyIsAlpha).length
  if a = 0 then none
  else
    let rest := u.drop a
    let w := (rest.takeWhile pyIsSpace).length
    if w = 0 then none
    else
      let rest2 := rest.drop w
      if 4 ≤ rest2.length ∧ (rest2.take 4).all pyIsDigit then some (a + w + 4)
      else none

/-- The capture group capture group (numeric date | textual date):
numeric alternative first. -/
def dateCaptureLen (u : List Char) : Option ℕ :=
  match numericDateLen u with
  | some n => some n
  | none => textualDateLen u

/-- One keyword alternative followed by `[:\s]*` and the capture group;
returns (offset of the capture inside `u`, capture length). -/
def tryAlt (kwLen : Option ℕ) (u : List Char) : Option (ℕ × ℕ) :=
  match kwLen with
  | none => none
  | some k =>
    let rest := u.drop k
    let w := (rest.takeWhile isColonSpace).length
    match dateCaptureLen (rest.drop w) with
    | none => none
    | some d => some (k + w, d)

/-- The expiry keyword alternation `exp|expiry|expires?|best\s*before|use\s*by`
tried in pattern order (with `expires?` expanding greedily to
`expires` then `expire`), each with its continuation. -/
def expiryAttempt (u : List Char) : Option (ℕ × ℕ) :=
  match tryAlt (matchLitCI (str "exp") u) u with
  | some r => some r
  | none =>
  match tryAlt (matchLitCI (str "expiry") u) u with
  | some r => some r
  | none =>
  match tryAlt (matchLitCI (str "expires") u) u with
  | some r => some r
  | none =>
  match tryAlt (matchLitCI (str "expire") u) u with
  | some r => some r
  | none =>
  match tryAlt (matchKwGap (str "best") (str "before") u) u with
  | some r => some r
  | none => tryAlt (matchKwGap (str "use") (str "by") u) u

/-- The mfg keyword alternation `mfg|manufactured|prod|production|date\s*of`
tried in pattern order. -/
def mfgAttempt (u : List Char) : Option (ℕ × ℕ) :=
  match tryAlt (matchLitCI (str "mfg") u) u with
  | some r => some r
  | none =>
  match tryAlt (matchLitCI (str "manufactured") u) u with
  | some r => some r
  | none =>
  match tryAlt (matchLitCI (str "prod") u) u with
  | some r => some r
  | none =>
  match tryAlt (matchLitCI (str "production") u) u with
  | some r => some r
  | none => tryAlt (matchKwGap (str "date") (str "of") u) u

/-- `pattern.search`: scan start positions left to right, return the
capture group of the first full match. -/
def searchCapture (attempt : List Char → Option (ℕ × ℕ)) : List Char → Option (List Char)
  | [] =>
    match attempt [] with
    | some (o, d) => some ((([] : List Char).drop o).take d)
    | none => none
  | c :: rest =>
    match attempt (c :: rest) with
    | some (o, d) => some (((c :: rest).drop o).take d)
    | none => searchCapture attempt rest

/-- Generalisation of `splitOnChar` to a character class, for
`re.split` on the separator class. -/
def splitOnPred (p : Char → Bool) : List Char → List (List Char)
  | [] => [[]]
  | c :: rest =>
    match splitOnPred p rest with
    | [] => if p c then [[], []] else [[c]]
    | h :: t => if p c then [] :: h :: t else (c :: h) :: t

/-- The source's anchored numeric-shape `re.match` as a
full-shape test. -/
def fullNumericDate (raw : List Char) : Bool :=
  match splitOnPred isSepChar raw with
  | [p0, p1, p2] =>
    !p0.isEmpty && p0.length ≤ 2 && p0.all pyIsDigit &&
    !p1.isEmpty && p1.length ≤ 2 && p1.all pyIsDigit &&
    2 ≤ p2.length && p2.length ≤ 4 && p2.all pyIsDigit
  | _ => false

/-- Normalisation applied to a captured raw date: numeric dates have
their separators rewritten to `/` and 2-digit years prefixed with `20`;
textual dates are kept verbatim; (the `len(parts) == 3` guard of the
source, vacuous for a shape-matching capture, is mirrored). -/
def normalizeRaw (raw : List Char) : Option (List Char) :=
  if fullNumericDate raw then
    match splitOnPred isSepChar raw with
    | [p0, p1, p2] =>
      some (p0 ++ '/' :: p1 ++ '/' :: (if p2.length = 2 then '2' :: '0' :: p2 else p2))
    | _ => none
  else some raw

/-- Result record of `extract_dates`. -/
structure DatesResult where
  expiry_date : Option (List Char)
  mfg_date : Option (List Char)
deriving DecidableEq, Repr

/-- `extract_dates`: safety-critical date extraction from the back-label
text. -/
def extract_dates (back_text : List Char) : DatesResult :=
  if back_text.isEmpty then { expiry_date := none, mfg_date := none }
  else
    { expiry_date := (searchCapture expiryAttempt back_text).bind normalizeRaw
      mfg_date := (searchCapture mfgAttempt back_text).bind normalizeRaw }

end ExtractDates


namespace ExtractDates

/-- Whatever `searchCapture` returns is a contiguous substring (infix) of
the searched text. -/
theorem searchCapture_infix {attempt : List Char → Option (ℕ × ℕ)}
    {s raw : List Char} (h : searchCapture attempt s = some raw) :
    raw <:+: s := by
  induction s with
  | nil =>
    rw [searchCapture] at h
    cases ha : attempt [] with
    | none => rw [ha] at h; exact absurd h (by simp)
    | some od =>
      rw [ha] at h
      obtain ⟨o, d⟩ := od
      simp at h
      simp [← h]
  | cons c rest ih =>
    rw [searchCapture] at h
    cases ha : attempt (c :: rest) with
    | none =>
      rw [ha] at h
      exact (ih h).trans ⟨[c], [], by simp⟩
    | some od =>
      obtain ⟨o, d⟩ := od
      rw [ha] at h
      simp only [Option.some.injEq] at h
      refine ⟨(c :: rest).take o, ((c :: rest).drop o).drop d, ?_⟩
      rw [← h, List.append_assoc, List.take_append_drop, List.take_append_drop]

/-- C1 (amended): every non-null date returned by `extract_dates` is the
normalisation (separators to `/`, 2-digit year prefixed with `20`,
textual capture verbatim) of a capture that occurs contiguously in the
input; no match yields `null`. -/
theorem extract_dates_no_fabrication (back_text : List Char) :
    (∀ d, (extract_dates back_text).expiry_date = some d →
      ∃ raw, raw <:+: back_text ∧ normalizeRaw raw = some d) ∧
    (∀ d, (extract_dates back_text).mfg_date = some d →
      ∃ raw, raw <:+: back_text ∧ normalizeRaw raw = some d) := by
  unfold extract_dates
  by_cases hb : back_text.isEmpty = true
  · rw [if_pos hb]
    exact ⟨fun d h => by simp at h, fun d h => by simp at h⟩
  rw [if_neg hb]
  constructor
  · intro d h
    simp only at h
    obtain ⟨raw, hraw, hnorm⟩ := Option.bind_eq_some.mp h
    exact ⟨raw, searchCapture_infix hraw, hnorm⟩
  · intro d h
    simp only at h
    obtain ⟨raw, hraw, hnorm⟩ := Option.bind_eq_some.mp h
    exact ⟨raw, searchCapture_infix hraw, hnorm⟩

/-- Witness for the amended C1 at a concrete back label. -/
theorem extract_dates_no_fabrication_witness :
    ∃ raw, raw <:+: str "exp 1/2/2026" ∧ normalizeRaw raw = some (str "1/2/2026") :=
  (extract_dates_no_fabrication (str "exp 1/2/2026")).1 (str "1/2/2026") (by decide)

/-- C1 counterexample: on `"use by 3-4-25"` the code returns the expiry
date `"3/4/2025"`, which is not a substring of the input (the separators
are rewritten and the year is expanded), so the claim's "never returns a
date value that is not a substring of the input" is false; and a
`"BB:"`-anchored date is not matched at all, contradicting the claimed
keyword set. -/
theorem extract_dates_counterexample :
    (extract_dates (str "use by 3-4-25")).expiry_date = some (str "3/4/2025") ∧
    pySubstr (str "3/4/2025") (str "use by 3-4-25") = false ∧
    (extract_dates (str "BB: 01/02/23")).expiry_date = none := by
  refine ⟨by decide, by decide, by decide⟩

end ExtractDates

/-! ## Brand and product-name extraction (src/backend/services/extract.py) -/

namespace ExtractHeuristics

/-- The fixed `KNOWN_BRANDS` list, in source order (note the six entries
that are not fully upper-case). -/
def KNOWN_BRANDS : List (List Char) :=
  [str "TONYMOLY", str "LANEIGE", str "AMOREPACIFIC", str "INNISFREE", str "ETUDE HOUSE",
   str "COSRX", str "PURITO", str "ISNTREE", str "ROUND LAB", str "SKIN FUNCTIONAL",
   str "DOVE", str "NIVEA", str "VASELINE", str "CETAPHIL", str "CeraVe",
   str "Neutrogena", str "Olay", str "L'Oreal", str "Maybelline", str "Loreal"]

/-- The `skip_keywords` list of the all-caps brand heuristic. -/
def skip_keywords : List (List Char) :=
  [str "warning", str "contains", str "nourishing", str "bouncy", str "moist", str "for"]

/-- Stripped, non-empty lines: the comprehension
`[line.strip() for line in text.split(chr 10) if line.strip()]`. -/
def strippedLines (text : List Char) : List (List Char) :=
  ((splitOnChar '\n' text).map pyStrip).filter (fun l => !l.isEmpty)

/-- Candidate filter of the all-caps brand heuristic (loop body of
`extract_brand`): all-caps, length 2..20, no blocked keyword, and not a
1-2 character token. -/
def brandCandidate (line : List Char) : Bool :=
  pyIsUpper line && (2 ≤ line.length && line.length ≤ 20) &&
  !(skip_keywords.any fun kw => pySubstr kw (pyLower line)) &&
  !(line.length ≤ 2)

/-- `extract_brand`: known-brand substring scan over the upper-cased
text, then the conservative all-caps line heuristic. -/
def extract_brand (text : List Char) : Option (List Char) :=
  if text.isEmpty then none
  else
    match KNOWN_BRANDS.find? (fun brand => pySubstr brand (pyUpper text)) with
    | some brand => some brand
    | none =>
      match (strippedLines text).filter brandCandidate with
      | [] => none
      | candidate :: _ => if 3 ≤ candidate.length then some candidate else none

/-- Matcher for `re.match(r'^[0-9\W]+$', line)`: non-empty and every
character is a digit or a non-word character (so no letters and no
underscores
). -/
def pureDigitsPunct (l : List Char) : Bool :=
  !l.isEmpty && l.all (fun c => pyIsDigit c || !(pyIsAlnum c || c == '_'))

/-- Per-line survival test of `extract_product_name` (negations of the
four `continue` conditions). -/
def productLine (line : List Char) : Bool :=
  !(line.length < 3) && !pureDigitsPunct line &&
  !(40 < line.length && pyIsUpper line) &&
  !(pyIsUpper line && (pySplitWs line).length = 1)

/-- `extract_product_name`: first of the first 15 stripped non-empty
lines that survives the skip rules; `None` when none survives. -/
def extract_product_name (text : List Char) : Option (List Char) :=
  if text.isEmpty then none
  else ((strippedLines text).take 15).find? productLine

end ExtractHeuristics


namespace ExtractHeuristics

/-- C7 counterexample: `"CeraVe"` is a known brand occurring
case-insensitively in the text, yet `extract_brand` returns `None`: the
code requires the list entry verbatim inside the upper-cased text, so
mixed-case entries can never match. -/
theorem extract_brand_counterexample :
    (str "CeraVe") ∈ KNOWN_BRANDS ∧
    pySubstr (pyUpper (str "CeraVe")) (pyUpper (str "CeraVe Daily Lotion")) = true ∧
    extract_brand (str "CeraVe Daily Lotion") = none := by
  refine ⟨by decide, by decide, by decide⟩

/-- C7 (amended): a returned brand is either the first `KNOWN_BRANDS`
entry occurring verbatim in the upper-cased text (case-folded text, exact
list entry -- only fully upper-case entries can ever match), or the first
stripped all-uppercase line of length 3..20 free of blocked keywords. -/
theorem extract_brand_sound (text : List Char) :
    (∀ b, extract_brand text = some b →
      (b ∈ KNOWN_BRANDS ∧ pySubstr b (pyUpper text) = true) ∨
      (b ∈ strippedLines text ∧ pyIsUpper b = true ∧ 3 ≤ b.length ∧ b.length ≤ 20 ∧
        ∀ kw ∈ skip_keywords, pySubstr kw (pyLower b) = false)) ∧
    (∀ b, ¬text.isEmpty = true →
      KNOWN_BRANDS.find? (fun brand => pySubstr brand (pyUpper text)) = some b →
      extract_brand text = some b) := by
  constructor
  · intro b hb
    unfold extract_brand at hb
    by_cases he : text.isEmpty = true
    · rw [if_pos he] at hb; exact absurd hb (by simp)
    rw [if_neg he] at hb
    cases hfind : KNOWN_BRANDS.find? (fun brand => pySubstr brand (pyUpper text)) with
    | some brand =>
      rw [hfind] at hb
      cases hb
      exact Or.inl ⟨List.mem_of_find?_eq_some hfind, by simpa using List.find?_some hfind⟩
    | none =>
      rw [hfind] at hb
      right
      cases hfilter : (strippedLines text).filter brandCandidate with
      | nil => rw [hfilter] at hb; exact absurd hb (by simp)
      | cons candidate rest =>
        rw [hfilter] at hb
        simp only at hb
        by_cases hlen : 3 ≤ candidate.length
        · rw [if_pos hlen] at hb
          cases hb
          have hmem : b ∈ (strippedLines text).filter brandCandidate := by
            rw [hfilter]; exact List.mem_cons_self _ _
          obtain ⟨hmem', hcand⟩ := List.mem_filter.mp hmem
          unfold brandCandidate at hcand
          simp only [Bool.and_eq_true, Bool.not_eq_true', decide_eq_true_eq,
            List.any_eq_false] at hcand
          obtain ⟨⟨⟨hup, _, hl20⟩, hkw⟩, _⟩ := hcand
          refine ⟨hmem', hup, hlen, hl20, ?_⟩
          intro kw hkw'
          simpa using hkw kw hkw'
        · rw [if_neg hlen] at hb; exact absurd hb (by simp)
  · intro b he hfind
    unfold extract_brand
    rw [if_neg he, hfind]

/-- Witness for the amended C7 on a text containing a known brand. -/
theorem extract_brand_sound_witness :
    ((str "DOVE") ∈ KNOWN_BRANDS ∧ pySubstr (str "DOVE") (pyUpper (str "dove soap")) = true) ∨
    ((str "DOVE") ∈ strippedLines (str "dove soap") ∧ pyIsUpper (str "DOVE") = true ∧
      3 ≤ (str "DOVE").length ∧ (str "DOVE").length ≤ 20 ∧
      ∀ kw ∈ skip_keywords, pySubstr kw (pyLower (str "DOVE")) = false) :=
  (extract_brand_sound (str "dove soap")).1 (str "DOVE") (by decide)

/-- C8 counterexample: when no line survives, the extractor returns
`None`, not the `"Unknown Product"` sentinel; and a line starting with a
date is not skipped. -/
theorem extract_product_name_counterexample :
    extract_product_name (str "ab") = none ∧
    extract_product_name (str "ab") ≠ some (str "Unknown Product") ∧
    extract_product_name (str "12/25/2024 Cream") = some (str "12/25/2024 Cream") := by
  refine ⟨by decide, by decide, by decide⟩

/-- C8 (amended): `extract_product_name` returns the first of the first
15 stripped non-empty lines that has length at least 3, is not pure
digits/punctuation, is not an all-uppercase line longer than 40
characters, and is not a single-word all-uppercase line; there is no
date-pattern skip, and when no line survives the result is `None` (there
is no "Unknown Product" sentinel). -/
theorem extract_product_name_first_surviving (text : List Char) :
    (∀ l, extract_product_name text = some l →
      l ∈ (strippedLines text).take 15 ∧ 3 ≤ l.length ∧ pureDigitsPunct l = false ∧
      ¬(40 < l.length ∧ pyIsUpper l = true) ∧
      ¬(pyIsUpper l = true ∧ (pySplitWs l).length = 1)) ∧
    (extract_product_name text = none →
      ∀ line ∈ (strippedLines text).take 15, productLine line = false) := by
  constructor
  · intro l hl
    unfold extract_product_name at hl
    by_cases he : text.isEmpty = true
    · rw [if_pos he] at hl; exact absurd hl (by simp)
    rw [if_neg he] at hl
    have hmem := List.mem_of_find?_eq_some hl
    have hp := List.find?_some hl
    unfold productLine at hp
    simp only [Bool.and_eq_true, Bool.not_eq_true', decide_eq_false_iff_not, not_lt,
      Bool.and_eq_false_iff] at hp
    obtain ⟨⟨⟨h3, hpd⟩, h40⟩, h1w⟩ := hp
    refine ⟨hmem, h3, hpd, ?_, ?_⟩
    · intro ⟨ha, hb⟩
      rcases h40 with h | h
      · omega
      · simp_all
    · intro ⟨ha, hb⟩
      rcases h1w with h | h
      · simp_all
      · exact h hb
  · intro hnone line hline
    unfold extract_product_name at hnone
    by_cases he : text.isEmpty = true
    · -- an empty text has no surviving stripped line at all
      exfalso
      have : strippedLines text = [] := by
        have : text = [] := by simpa using he
        subst this
        rfl
      rw [this] at hline
      simp at hline
    · rw [if_neg he] at hnone
      have := List.find?_eq_none.mp hnone line hline
      simpa using this

/-- Witness for the amended C8. -/
theorem extract_product_name_first_surviving_witness :
    (str "Ceramide Mochi Toner") ∈
        (strippedLines (str "TONYMOLY\nCeramide Mochi Toner")).take 15 ∧
      3 ≤ (str "Ceramide Mochi Toner").length ∧
      pureDigitsPunct (str "Ceramide Mochi Toner") = false ∧
      ¬(40 < (str "Ceramide Mochi Toner").length ∧ pyIsUpper (str "Ceramide Mochi Toner") = true) ∧
      ¬(pyIsUpper (str "Ceramide Mochi Toner") = true ∧
        (pySplitWs (str "Ceramide Mochi Toner")).length = 1) :=
  (extract_product_name_first_surviving (str "TONYMOLY\nCeramide Mochi Toner")).1
    (str "Ceramide Mochi Toner") (by decide)

end ExtractHeuristics

/-! ## JSON values and `json.loads` (Python standard library, as used by
the Tier-1 response handling in src/backend/services/extract.py) -/

/-- JSON values as produced by `json.loads`. Numbers keep their source
lexeme (the claims never compare numbers numerically); objects are
association lists in insertion order with no duplicate keys (later
duplicates overwrite, as for a Python dict). -/
inductive Json where
  | null : Json
  | bool (b : Bool) : Json
  | num (lexeme : List Char) : Json
  | str (s : List Char) : Json
  | arr (elems : List Json) : Json
  | obj (members : List (List Char × Json)) : Json

/-- Python truthiness of a JSON-decoded value (`if not x` / `x or y`).
For numbers: any non-zero digit in the lexeme (exact for the integer and
ordinary decimal literals that can arise here). -/
def pyTruthy : Json → Bool
  | Json.null => false
  | Json.bool b => b
  | Json.num lx => lx.any (fun c => '1' ≤ c && c ≤ '9')
  | Json.str s => !s.isEmpty
  | Json.arr xs => !xs.isEmpty
  | Json.obj kvs => !kvs.isEmpty

/-- `dict.get`: first (unique) binding of the key. -/
def pyDictGet (kvs : List (List Char × Json)) (k : List Char) : Option Json :=
  (kvs.find? (fun kv => kv.1 = k)).map (fun kv => kv.2)

/-- `dict[k] = v`: overwrite in place if the key exists (keeping its
position), else append. -/
def pyDictSet (kvs : List (List Char × Json)) (k : List Char) (v : Json) :
    List (List Char × Json) :=
  if kvs.any (fun kv => kv.1 = k) then
    kvs.map (fun kv => if kv.1 = k then (k, v) else kv)
  else kvs ++ [(k, v)]

namespace JsonParse

/-- JSON inter-token whitespace (`json.decoder` skips exactly these). -/
def jsonWs (c : Char) : Bool := c == ' ' || c == '\t' || c == '\n' || c == '\r'

def skipWs (s : List Char) : List Char := s.dropWhile jsonWs

def hexVal (c : Char) : Option ℕ :=
  if '0' ≤ c ∧ c ≤ '9' then some (c.toNat - 48)
  else if 'a' ≤ c ∧ c ≤ 'f' then some (c.toNat - 87)
  else if 'A' ≤ c ∧ c ≤ 'F' then some (c.toNat - 70)
  else none

def hex4 : List Char → Option (ℕ × List Char)
  | a :: b :: c :: d :: rest => do
    let va ← hexVal a
    let vb ← hexVal b
    let vc ← hexVal c
    let vd ← hexVal d
    pure (((va * 16 + vb) * 16 + vc) * 16 + vd, rest)
  | _ => none

/-- Body of a JSON string after the opening quote, strict mode: raw
control characters are rejected, the standard escapes and `\uXXXX`
(with surrogate-pair combination) are decoded. A lone surrogate, which
Python would keep as an unpaired code unit, has no `Char` counterpart
and decodes to the null character here; no claim depends on it. -/
def stringBody (fuel : ℕ) (s : List Char) : Option (List Char × List Char) :=
  match fuel, s with
  | 0, _ => none
  | _, [] => none
  | fuel + 1, c :: rest =>
    if c = '"' then some ([], rest)
    else if c = '\\' then
      match rest with
      | [] => none
      | e :: rest2 =>
        let decoded : Option (Char × List Char) :=
          if e = '"' then some ('"', rest2)
          else if e = '\\' then some ('\\', rest2)
          else if e = '/' then some ('/', rest2)
          else if e = 'b' then some ('\x08', rest2)
          else if e = 'f' then some ('\x0c', rest2)
          else if e = 'n' then some ('\n', rest2)
          else if e = 'r' then some ('\r', rest2)
          else if e = 't' then some ('\t', rest2)
          else if e = 'u' then
            match hex4 rest2 with
            | none => none
            | some (v, rest3) =>
              if 0xD800 ≤ v ∧ v ≤ 0xDBFF then
                match rest3 with
                | '\\' :: 'u' :: rest4 =>
                  match hex4 rest4 with
                  | some (w, rest5) =>
                    if 0xDC00 ≤ w ∧ w ≤ 0xDFFF then
                      some (Char.ofNat (0x10000 + (v - 0xD800) * 0x400 + (w - 0xDC00)), rest5)
                    else some (Char.ofNat v, '\\' :: 'u' :: rest4)
                  | none => some (Char.ofNat v, '\\' :: 'u' :: rest4)
                | _ => some (Char.ofNat v, rest3)
              else some (Char.ofNat v, rest3)
          else none
        match decoded with
        | none => none
        | some (ch, rest') =>
          match stringBody fuel rest' with
          | none => none
          | some (tail, rem) => some (ch :: tail, rem)
    else if c.toNat < 0x20 then none
    else
      match stringBody fuel rest with
      | none => none
      | some (tail, rem) => some (c :: tail, rem)

/-- A JSON number lexeme `-?(0|[1-9][0-9]*)(\.[0-9]+)?([eE][+-]?[0-9]+)?`
at the head of the input. -/
def numberLexeme (s : List Char) : Option (List Char × List Char) :=
  let (sign, s1) :=
    match s with
    | '-' :: rest => (['-'], rest)
    | _ => (([] : List Char), s)
  match s1 with
  | [] => none
  | c :: _ =>
    if ¬ pyIsDigit c then none
    else if c = '0' ∧ (s1.drop 1).head?.elim false pyIsDigit then none
    else
      let intPart := s1.takeWhile pyIsDigit
      let s2 := s1.drop intPart.length
      let (fracPart, s3) :=
        match s2 with
        | '.' :: rest =>
          let ds := rest.takeWhile pyIsDigit
          if ds.isEmpty then (([] : List Char), s2)
          else ('.' :: ds, rest.drop ds.length)
        | _ => (([] : List Char), s2)
      if (match s2 with
          | '.' :: _ => fracPart.isEmpty
          | _ => false : Bool) then none
      else
        let (expPart, s4) :=
          match s3 with
          | e :: rest =>
            if e = 'e' ∨ e = 'E' then
              let (sg, rest2) :=
                match rest with
                | '+' :: r => (['+'], r)
                | '-' :: r => (['-'], r)
                | _ => (([] : List Char), rest)
              let ds := rest2.takeWhile pyIsDigit
              if ds.isEmpty then (([] : List Char), s3)
              else (e :: (sg ++ ds), rest2.drop ds.length)
            else (([] : List Char), s3)
          | _ => (([] : List Char), s3)
        if (match s3 with
            | e :: _ => (e == 'e' || e == 'E') && expPart.isEmpty
            | _ => false : Bool) then none
        else some (sign ++ intPart ++ fracPart ++ expPart, s4)

mutual

/-- One JSON value at the head of the input (leading whitespace
skipped), as decoded by `json.loads` (which also accepts the Python
extensions `NaN`, `Infinity`, `-Infinity`). -/
def parseVal : ℕ → List Char → Option (Json × List Char)
  | 0, _ => none
  | fuel + 1, s =>
    match skipWs s with
    | [] => none
    | c :: rest =>
      if c = '"' then
        match stringBody (rest.length + 1) rest with
        | some (body, rem) => some (Json.str body, rem)
        | none => none
      else if c = '[' then
        parseElems fuel rest
      else if c = '{' then
        parseMembers fuel rest
      else if ('n' :: 'u' :: 'l' :: 'l' :: []).isPrefixOf (c :: rest) then
        some (Json.null, (c :: rest).drop 4)
      else if ('t' :: 'r' :: 'u' :: 'e' :: []).isPrefixOf (c :: rest) then
        some (Json.bool true, (c :: rest).drop 4)
      else if ('f' :: 'a' :: 'l' :: 's' :: 'e' :: []).isPrefixOf (c :: rest) then
        some (Json.bool false, (c :: rest).drop 5)
      else if (str "NaN").isPrefixOf (c :: rest) then
        some (Json.num (str "NaN"), (c :: rest).drop 3)
      else if (str "Infinity").isPrefixOf (c :: rest) then
        some (Json.num (str "Infinity"), (c :: rest).drop 8)
      else if (str "-Infinity").isPrefixOf (c :: rest) then
        some (Json.num (str "-Infinity"), (c :: rest).drop 9)
      else
        match numberLexeme (c :: rest) with
        | some (lx, rem) => some (Json.num lx, rem)
        | none => none

/-- Array elements after `[`. -/
def parseElems : ℕ → List Char → Option (Json × List Char)
  | 0, _ => none
  | fuel + 1, s =>
    match skipWs s with
    | ']' :: rest => some (Json.arr [], rest)
    | _ =>
      match parseElems1 fuel (skipWs s) with
      | some (elems, rest) => some (Json.arr elems, rest)
      | none => none

/-- Non-empty comma-separated element list, then `]`. -/
def parseElems1 : ℕ → List Char → Option (List Json × List Char)
  | 0, _ => none
  | fuel + 1, s =>
    match parseVal fuel s with
    | none => none
    | some (v, rest) =>
      match skipWs rest with
      | ',' :: rest2 =>
        match parseElems1 fuel rest2 with
        | some (vs, rest3) => some (v :: vs, rest3)
        | none => none
      | ']' :: rest2 => some ([v], rest2)
      | _ => none

/-- Object members after `{`, building a dict with overwrite-on-repeat
semantics (`buildDict`). -/
def parseMembers : ℕ → List Char → Option (Json × List Char)
  | 0, _ => none
  | fuel + 1, s =>
    match skipWs s with
    | '}' :: rest => some (Json.obj [], rest)
    | _ =>
      match parseMembers1 fuel (skipWs s) with
      | some (kvs, rest) =>
          some (Json.obj (kvs.foldl (fun acc kv => pyDictSet acc kv.1 kv.2) []), rest)
      | none => none

/-- Non-empty member list, then `}`. -/
def parseMembers1 : ℕ → List Char → Option (List (List Char × Json) × List Char)
  | 0, _ => none
  | fuel + 1, s =>
    match skipWs s with
    | '"' :: rest =>
      match stringBody (rest.length + 1) rest with
      | none => none
      | some (key, rest2) =>
        match skipWs rest2 with
        | ':' :: rest3 =>
          match parseVal fuel rest3 with
          | none => none
          | some (v, rest4) =>
            match skipWs rest4 with
            | ',' :: rest5 =>
              match parseMembers1 fuel rest5 with
              | some (kvs, rest6) => some ((key, v) :: kvs, rest6)
              | none => none
            | '}' :: rest5 => some ([(key, v)], rest5)
            | _ => none
        | _ => none
    | _ => none

end

/-- `json.loads`: parse one value with surrounding whitespace, require
end of input, else raise (`none`). -/
def json_loads (s : List Char) : Option Json :=
  match parseVal (s.length + 1) s with
  | some (v, rest) => if (skipWs rest).isEmpty then some v else none
  | none => none



/-! ## Tier-1 AI extraction (extract_with_gemini in
src/backend/services/extract.py); the generative service itself is an
oracle parameter `model : Option (List Char → List Char)` (None models a
missing API key / missing library, exactly the `if not model` branch). -/

namespace Gemini

/-- Index of the first occurrence of `sep` in `l`. -/
def findSub (sep : List Char) : List Char → Option ℕ
  | [] => if sep.isEmpty then some 0 else none
  | c :: rest =>
    if sep.isPrefixOf (c :: rest) then some 0
    else (findSub sep rest).map (· + 1)

def pySplitSubF (sep : List Char) : ℕ → List Char → List (List Char)
  | 0, l => [l]
  | fuel + 1, l =>
    match findSub sep l with
    | none => [l]
    | some i => l.take i :: pySplitSubF sep fuel (l.drop (i + sep.length))

/-- Python `s.split(sep)` for a non-empty separator string. -/
def pySplitSub (sep l : List Char) : List (List Char) := pySplitSubF sep (l.length + 1) l

/-- The all-null / empty-list dictionary returned on short input, a
missing model, and any extraction/parse failure. -/
def nullGemini : List (List Char × Json) :=
  [(str "product_name", Json.null), (str "brand", Json.null),
   (str "expiry_date", Json.null), (str "mfg_date", Json.null),
   (str "ingredients", Json.arr []), (str "warnings", Json.arr [])]

/-- `result["ingredients"] = result.get("ingredients") or []` and the
same for warnings. -/
def ensureArrays (kvs : List (List Char × Json)) : List (List Char × Json) :=
  let ing := match pyDictGet kvs (str "ingredients") with
    | some v => if pyTruthy v then v else Json.arr []
    | none => Json.arr []
  let war := match pyDictGet kvs (str "warnings") with
    | some v => if pyTruthy v then v else Json.arr []
    | none => Json.arr []
  pyDictSet (pyDictSet kvs (str "ingredients") ing) (str "warnings") war

/-- Response post-processing: strip, unwrap a markdown code fence (the
segment after the first ```json up to the next fence, else after the
first ``` fence), then a single direct `json.loads`; a parse failure or
a non-object result falls into the `except` branch and yields the
all-null dictionary. This is the entire Tier-1 "repair": no prefix
trimming, no bracket auto-closing, no field re-extraction exists in the
code. -/
def fenceStrip (resp : List Char) : List Char :=
  let t0 := pyStrip resp
  if pySubstr (str "```json") t0 then
    (pySplitSub (str "```")
      ((pySplitSub (str "```json") t0).getD 1 [])).getD 0 []
  else if pySubstr (str "```") t0 then
    (pySplitSub (str "```")
      ((pySplitSub (str "```") t0).getD 1 [])).getD 0 []
  else t0

def processGeminiText (resp : List Char) : List (List Char × Json) :=
  match JsonParse.json_loads (fenceStrip resp) with
  | some (Json.obj kvs) => ensureArrays kvs
  | _ => nullGemini

/-- The fixed instruction template (an f-string in the source; `\x7b`
and `\x7d` denote its literal braces). -/
def promptPrefix : List Char :=
  str "You are a product label analyzer. Extract the following information from this OCR-extracted product label text.\n\nOCR TEXT:\n"

def promptSuffix : List Char :=
  str "\n\nExtract EXACTLY these fields (return as JSON):\n1. product_name: The product name (e.g., \"Ceramide Mochi Toner\", \"Vitamin C Serum\")\n2. brand: The brand/manufacturer name (e.g., \"TONYMOLY\", \"DOVE\", \"Neutrogena\")\n3. expiry_date: The expiration/best-before date (CRITICAL - look for keywords like \"EXP\", \"EXPIRY\", \"BEST BEFORE\", \"USE BY\") (format: MM/DD/YYYY or text, or null if not found)\n4. mfg_date: The manufacturing date (format: MM/DD/YYYY or text, or null if not found)\n5. ingredients: List of ingredients (split by commas or newlines, remove bullet points/dashes)\n6. warnings: List of warnings or cautions (e.g., \"Avoid eyes\", \"External use only\")\n\nRULES:\n- Return ONLY valid information found in the text\n- If something is not clearly present, return null (not \"unknown\" or empty string)\n- Product name should be descriptive, not just the brand\n- For ingredients, return an array of individual items, not the whole list as one string\n- For warnings, return complete sentences or phrases\n- CRITICAL: Look very carefully for EXPIRY DATE - it's usually near the bottom of the back label, formatted as MM/DD/YYYY or month/year\n\nReturn ONLY a valid JSON object, no other text:\n\x7b\n  \"product_name\": \"...\",\n  \"brand\": \"...\",\n  \"expiry_date\": \"...\",\n  \"mfg_date\": \"...\",\n  \"ingredients\": [\"item1\", \"item2\"],\n  \"warnings\": [\"warning1\", \"warning2\"]\n\x7d"

/-- `extract_with_gemini`, returning the result dictionary together with
the number of calls made to the external generative service. -/
def extract_with_gemini (model : Option (List Char → List Char))
    (ocr_text : List Char) : List (List Char × Json) × ℕ :=
  if ocr_text.isEmpty ∨ (pyStrip ocr_text).length < 5 then (nullGemini, 0)
  else
    match model with
    | none => (nullGemini, 0)
    | some generate =>
      (processGeminiText (generate (promptPrefix ++ ocr_text ++ promptSuffix)), 1)

end Gemini


/-! ## Ingredient and warning extraction (extract.py) -/

namespace ExtractLists

/-- Terminator of the non-greedy ingredients block: the alternation
(newline blank-line | newline Word-colon | end), where `$` also matches
just before a final newline and the letter classes are case-insensitive
under `re.IGNORECASE`. -/
def ingTerminator (w : List Char) : Bool :=
  (match w with
   | '\n' :: w2 => (w2.takeWhile pyIsSpace).contains '\n'
   | _ => false) ||
  (match w with
   | '\n' :: c1 :: w2 =>
     pyIsAlpha c1 &&
       (let a := w2.takeWhile pyIsAlpha
        !a.isEmpty && (w2.drop a.length).head? == some ':')
   | _ => false) ||
  w.isEmpty || w == ['\n']

/-- Lazy `(.+?)` expansion: the shortest non-empty prefix of `v` after
which the terminator matches (DOTALL: the dot crosses newlines). -/
def ngGroup (v : List Char) : Option (List Char) :=
  ((List.range' 1 v.length).find? (fun m => ingTerminator (v.drop m))).map (v.take ·)

/-- Optional-newline step of `\n?` (greedy: consume first, else not). -/
def tryNl (v : List Char) : Option (List Char) :=
  match v with
  | '\n' :: v2 =>
    match ngGroup v2 with
    | some g => some g
    | none => ngGroup v
  | _ => ngGroup v

/-- Greedy `[:\s]*` with backtracking: try the longest gap first. -/
def tryGap (rest : List Char) : ℕ → Option (List Char)
  | 0 => tryNl rest
  | k + 1 =>
    match tryNl (rest.drop (k + 1)) with
    | some g => some g
    | none => tryGap rest k

/-- Full attempt of the ingredients pattern at one start position:
keyword (`ingredients` greedily before `ingredient`), gap, optional
newline, lazy block, terminator. -/
def ingAttempt (u : List Char) : Option (List Char) :=
  let tryKw (kw : List Char) : Option (List Char) :=
    match ExtractDates.matchLitCI kw u with
    | none => none
    | some kl =>
      let rest := u.drop kl
      tryGap rest (rest.takeWhile ExtractDates.isColonSpace).length
  match tryKw (str "ingredients") with
  | some g => some g
  | none => tryKw (str "ingredient")

/-- Leftmost search for the ingredients block. -/
def ingSearch : List Char → Option (List Char)
  | [] => ingAttempt []
  | c :: rest =>
    match ingAttempt (c :: rest) with
    | some g => some g
    | none => ingSearch rest

/-- `re.split` on runs of the class `[,;` newline `]+`. -/
def splitOnRunsF (p : Char → Bool) : ℕ → List Char → List (List Char)
  | 0, l => [l]
  | fuel + 1, l =>
    match l.findIdx? p with
    | none => [l]
    | some i => l.take i :: splitOnRunsF p fuel ((l.drop i).dropWhile p)

def splitOnRuns (p : Char → Bool) (l : List Char) : List (List Char) :=
  splitOnRunsF p (l.length + 1) l

/-- Python `s.strip(c)` for a single strip character. -/
def pyStripChar (c : Char) (l : List Char) : List Char :=
  ((l.dropWhile (· == c)).reverse.dropWhile (· == c)).reverse

/-- `extract_ingredients`: locate the ingredients block, split on
comma/semicolon/newline runs, trim whitespace and bullet markers, keep
fragments whose trimmed length exceeds 2, cap at 30. -/
def extract_ingredients (back_text : List Char) : List (List Char) :=
  if back_text.isEmpty then []
  else
    match ingSearch back_text with
    | none => []
    | some block =>
      let parts := splitOnRuns (fun c => c == ',' || c == ';' || c == '\n') block
      ((parts.filter (fun p => !(pyStrip p).isEmpty && 2 < (pyStrip p).length)).map
        (fun p => pyStripChar '*' (pyStripChar '-' (pyStripChar '•' (pyStrip p))))).take 30

/-- The fixed `WARNING_KEYWORDS` list. -/
def WARNING_KEYWORDS : List (List Char) :=
  [str "warning", str "may contain", str "contains", str "allergen", str "not suitable",
   str "caution", str "risk", str "external use", str "avoid eyes", str "keep away",
   str "do not ingest", str "patch test"]

/-- `extract_warnings`: every line containing a warning keyword,
stripped, kept when longer than 3 characters. -/
def extract_warnings (back_text : List Char) : List (List Char) :=
  if back_text.isEmpty then []
  else
    ((splitOnChar '\n' back_text).filter
      (fun line => WARNING_KEYWORDS.any (fun kw => pySubstr kw (pyLower line)))).filterMap
      (fun line =>
        if !(pyStrip line).isEmpty && 3 < (pyStrip line).length then some (pyStrip line)
        else none)

end ExtractLists

/-! ## Confidence scoring and extraction orchestration (extract.py) -/

namespace ExtractPipeline

/-- Truthiness of `extracted.get(key)` (missing key is `None`). -/
def truthyKey (extracted : List (List Char × Json)) (k : List Char) : Bool :=
  (pyDictGet extracted k).elim false pyTruthy

/-- `compute_confidence`: 0 without a truthy product name, else
0.40 (+0.25 brand) (+0.20 expiry) (+0.10 ingredients) (+0.05 warnings),
capped at 1.0. The two text arguments are accepted and ignored, as in
the source. -/
def compute_confidence (front_text back_text : List Char)
    (extracted : List (List Char × Json)) : ℚ :=
  if !truthyKey extracted (str "product_name") then 0
  else
    min ((2/5 : ℚ)
      + (if truthyKey extracted (str "brand") then 1/4 else 0)
      + (if truthyKey extracted (str "expiry_date") then 1/5 else 0)
      + (if truthyKey extracted (str "ingredients") then 1/10 else 0)
      + (if truthyKey extracted (str "warnings") then 1/20 else 0)) 1

/-- Python `A or B` over optional heuristic strings. -/
def pyOrStr (a b : Option (List Char)) : Option (List Char) :=
  match a with
  | some s => if s.isEmpty then b else a
  | none => b

/-- Truthiness of an optional string. -/
def optTruthy (o : Option (List Char)) : Bool :=
  match o with
  | some s => !s.isEmpty
  | none => false

/-- Python `str()` display of a JSON-decoded value as used inside the
summary f-string. (For containers and non-integer numbers Python's
display differs; no claim exercises those.) -/
def pyStrOfJson : Json → List Char
  | Json.null => str "None"
  | Json.bool true => str "True"
  | Json.bool false => str "False"
  | Json.num lx => lx
  | Json.str s => s
  | Json.arr _ => str "[...]"
  | Json.obj _ => str "\x7b...\x7d"

/-- Result dictionary of `extract_from_pipeline` (`summary` and
`scannedAt` are `none` when the corresponding keys are absent, as in the
short-circuit return). -/
structure ExtractOut where
  product_name : Json
  brand : Json
  expiry_date : Json
  mfg_date : Json
  ingredients : Json
  warnings : Json
  confidence : ℚ
  summary : Option (List Char)
  scannedAt : Option (List Char)

/-- The all-null short-circuit result (`confidence` 0.0). -/
def shortCircuitOut : ExtractOut :=
  { product_name := Json.null, brand := Json.null, expiry_date := Json.null,
    mfg_date := Json.null, ingredients := Json.arr [], warnings := Json.arr [],
    confidence := 0, summary := none, scannedAt := none }

/-- Main path of `extract_from_pipeline` after the short-circuit check:
Tier-1 call, regex date fallbacks, heuristic fallbacks, confidence,
summary and timestamp. Returns the result together with the number of
external-service calls. -/
def extract_from_pipeline_main (model : Option (List Char → List Char))
    (utcnow front_text back_text combined_text : List Char) : ExtractOut × ℕ :=
  let gr := Gemini.extract_with_gemini model combined_text
  let g0 := gr.1
  let g1 :=
    if !(pyDictGet g0 (str "expiry_date")).elim false pyTruthy then
      match (ExtractDates.extract_dates back_text).expiry_date with
      | some d => if !d.isEmpty then pyDictSet g0 (str "expiry_date") (Json.str d) else g0
      | none => g0
    else g0
  let g2 :=
    if !(pyDictGet g1 (str "mfg_date")).elim false pyTruthy then
      match (ExtractDates.extract_dates back_text).mfg_date with
      | some d => if !d.isEmpty then pyDictSet g1 (str "mfg_date") (Json.str d) else g1
      | none => g1
    else g1
  let extracted0 : List (List Char × Json) :=
    [(str "brand", (pyDictGet g2 (str "brand")).getD Json.null),
     (str "product_name", (pyDictGet g2 (str "product_name")).getD Json.null),
     (str "expiry_date", (pyDictGet g2 (str "expiry_date")).getD Json.null),
     (str "mfg_date", (pyDictGet g2 (str "mfg_date")).getD Json.null),
     (str "ingredients", (pyDictGet g2 (str "ingredients")).getD (Json.arr [])),
     (str "warnings", (pyDictGet g2 (str "warnings")).getD (Json.arr []))]
  let e1 :=
    if !truthyKey extracted0 (str "product_name") then
      match pyOrStr (ExtractHeuristics.extract_product_name front_text)
          (ExtractHeuristics.extract_product_name combined_text) with
      | some p =>
        if !p.isEmpty then pyDictSet extracted0 (str "product_name") (Json.str p)
        else extracted0
      | none => extracted0
    else extracted0
  let e2 :=
    if !truthyKey e1 (str "brand") then
      match pyOrStr (ExtractHeuristics.extract_brand front_text)
          (ExtractHeuristics.extract_brand combined_text) with
      | some b => if !b.isEmpty then pyDictSet e1 (str "brand") (Json.str b) else e1
      | none => e1
    else e1
  let e3 :=
    if !truthyKey e2 (str "ingredients") then
      pyDictSet e2 (str "ingredients")
        (Json.arr ((ExtractLists.extract_ingredients back_text).map Json.str))
    else e2
  let e4 :=
    if !truthyKey e3 (str "warnings") then
      pyDictSet e3 (str "warnings")
        (Json.arr ((ExtractLists.extract_warnings back_text).map Json.str))
    else e3
  let confidence := compute_confidence front_text back_text e4
  let parts : List (List Char) :=
    (if truthyKey e4 (str "product_name") then
      [pyStrOfJson ((pyDictGet e4 (str "product_name")).getD Json.null)]
    else if truthyKey e4 (str "brand") then
      [pyStrOfJson ((pyDictGet e4 (str "brand")).getD Json.null)]
    else []) ++
    (if truthyKey e4 (str "expiry_date") then
      [str "Expires " ++ pyStrOfJson ((pyDictGet e4 (str "expiry_date")).getD Json.null)]
    else [])
  let summary := if parts.isEmpty then none else some (List.intercalate (str ". ") parts)
  ({ product_name := (pyDictGet e4 (str "product_name")).getD Json.null
     brand := (pyDictGet e4 (str "brand")).getD Json.null
     expiry_date := (pyDictGet e4 (str "expiry_date")).getD Json.null
     mfg_date := (pyDictGet e4 (str "mfg_date")).getD Json.null
     ingredients := (pyDictGet e4 (str "ingredients")).getD (Json.arr [])
     warnings := (pyDictGet e4 (str "warnings")).getD (Json.arr [])
     confidence := confidence
     summary := summary
     scannedAt := some (utcnow ++ str "Z") }, gr.2)

/-- `extract_from_pipeline` (the unused `full_text` parameter of the
source is kept); the external-service oracle and the clock are explicit
inputs. -/
def extract_from_pipeline (model : Option (List Char → List Char))
    (utcnow front_text back_text : List Char) (full_text : Option (List Char)) :
    ExtractOut × ℕ :=
  let combined_text := pyStrip (front_text ++ '\n' :: back_text)
  if combined_text.isEmpty || combined_text.length < 5 then (shortCircuitOut, 0)
  else extract_from_pipeline_main model utcnow front_text back_text combined_text

end ExtractPipeline

namespace ExtractPipeline

/-- C2: when the combined trimmed text is under 5 characters (including
empty), `extract_from_pipeline` returns the all-null result with
confidence exactly 0.0 and performs zero calls to the external
generative service, whatever the oracle would answer. -/
theorem extract_from_pipeline_short_circuit
    (model : Option (List Char → List Char)) (utcnow front_text back_text : List Char)
    (full_text : Option (List Char))
    (hshort : (pyStrip (front_text ++ '\n' :: back_text)).length < 5) :
    extract_from_pipeline model utcnow front_text back_text full_text =
      (shortCircuitOut, 0) := by
  unfold extract_from_pipeline
  rw [if_pos]
  simp only [Bool.or_eq_true, decide_eq_true_eq]
  right
  exact hshort

/-- Witness for C2 with a non-trivial oracle: three characters of
combined text short-circuit without consulting the service. -/
theorem extract_from_pipeline_short_circuit_witness :
    extract_from_pipeline (some (fun p => p)) (str "2026-01-01T00:00:00")
      (str "a") (str "b") none = (shortCircuitOut, 0) :=
  extract_from_pipeline_short_circuit (some (fun p => p)) (str "2026-01-01T00:00:00")
    (str "a") (str "b") none (by decide)

end ExtractPipeline

/-! Dictionary lemmas for the confidence characterisation. -/

theorem find?_key_map_set {k k' : List Char} {v : Json} (h : k' ≠ k) :
    ∀ kvs : List (List Char × Json),
      List.find? (fun kv => kv.1 = k')
          (kvs.map (fun kv => if kv.1 = k then (k, v) else kv))
        = List.find? (fun kv => kv.1 = k') kvs := by
  intro kvs
  induction kvs with
  | nil => rfl
  | cons a rest ih =>
    rw [List.map_cons, List.find?_cons, List.find?_cons]
    by_cases hak : a.1 = k
    · rw [if_pos hak]
      have h1 : (decide ((k, v).1 = k')) = false := decide_eq_false (fun hc => h hc.symm)
      have h2 : (decide (a.1 = k')) = false := decide_eq_false (by rw [hak]; exact fun hc => h hc.symm)
      rw [h1, h2, ih]
    · rw [if_neg hak]
      by_cases hak' : a.1 = k'
      · rw [decide_eq_true hak']
      · rw [decide_eq_false hak', ih]

theorem pyDictGet_set_ne {kvs : List (List Char × Json)} {k k' : List Char} {v : Json}
    (h : k' ≠ k) : pyDictGet (pyDictSet kvs k v) k' = pyDictGet kvs k' := by
  unfold pyDictSet pyDictGet
  by_cases hany : kvs.any (fun kv => kv.1 = k) = true
  · rw [if_pos hany, find?_key_map_set h]
  · rw [if_neg hany, List.find?_append]
    cases hf : kvs.find? (fun kv => kv.1 = k') with
    | some a => simp
    | none =>
      simp only [Option.none_or]
      rw [List.find?_cons,
        show (decide ((k, v).1 = k')) = false from decide_eq_false (fun hc => h hc.symm)]
      rfl

theorem pyDictGet_set_eq {kvs : List (List Char × Json)} {k : List Char} {v : Json} :
    pyDictGet (pyDictSet kvs k v) k = some v := by
  unfold pyDictSet pyDictGet
  by_cases hany : kvs.any (fun kv => kv.1 = k) = true
  · rw [if_pos hany]
    have : ∀ kvs' : List (List Char × Json), kvs'.any (fun kv => kv.1 = k) = true →
        List.find? (fun kv => kv.1 = k)
            (kvs'.map (fun kv => if kv.1 = k then (k, v) else kv)) = some (k, v) := by
      intro kvs'
      induction kvs' with
      | nil => intro hc; simp at hc
      | cons a rest ih =>
        intro hc
        rw [List.map_cons, List.find?_cons]
        by_cases hak : a.1 = k
        · rw [if_pos hak, decide_eq_true rfl]
        · rw [if_neg hak, decide_eq_false hak]
          apply ih
          rw [List.any_cons] at hc
          simp only [Bool.or_eq_true] at hc
          rcases hc with hcon | hok
          · exact absurd (of_decide_eq_true hcon) hak
          · exact hok
    rw [this kvs hany]
    rfl
  · rw [if_neg hany, List.find?_append]
    have hnone : kvs.find? (fun kv => kv.1 = k) = none := by
      rw [List.find?_eq_none]
      intro kv hkv hc
      exact hany (List.any_eq_true.mpr ⟨kv, hkv, hc⟩)
    rw [hnone]
    simp [List.find?_cons]

namespace ExtractPipeline

/-- Claim-side formula, modelled from the spec's words for comparison
with the source's `compute_confidence`: +0.35 product (not the
"Unknown Product" sentinel, else +0.10); +0.20 brand; +0.20 expiry;
+0.05 mfg; +0.01 per ingredient capped at 10; +0.05 warnings; halved
for combined input under 50 characters; clamped to [0, 1]. -/
def spec_sentinel (extracted : List (List Char × Json)) : Bool :=
  match pyDictGet extracted (str "product_name") with
  | some (Json.str s) => s = str "Unknown Product"
  | _ => false

def spec_ingredient_count (extracted : List (List Char × Json)) : ℕ :=
  match pyDictGet extracted (str "ingredients") with
  | some (Json.arr xs) => xs.length
  | _ => 0

def spec_score (extracted : List (List Char × Json)) : ℚ :=
  (if truthyKey extracted (str "product_name") && !spec_sentinel extracted then 7/20 else 1/10)
  + (if truthyKey extracted (str "brand") then 1/5 else 0)
  + (if truthyKey extracted (str "expiry_date") then 1/5 else 0)
  + (if truthyKey extracted (str "mfg_date") then 1/20 else 0)
  + (min (spec_ingredient_count extracted) 10 : ℚ) * (1/100)
  + (if truthyKey extracted (str "warnings") then 1/20 else 0)

def spec_compute_confidence (front_text back_text : List Char)
    (extracted : List (List Char × Json)) : ℚ :=
  max 0 (min (if front_text.length + back_text.length < 50 then
    spec_score extracted * (1/2) else spec_score extracted) 1)

/-- The extraction dictionary holding only the "Unknown Product"
sentinel as product name. -/
def sentinelOnly : List (List Char × Json) :=
  [(str "product_name", Json.str (str "Unknown Product"))]

/-- C3 counterexample: on an extraction whose product name is exactly
the "Unknown Product" sentinel (and nothing else found), the code scores
0.40 -- regardless of input length -- while the claimed formula gives
0.10 (long input) or 0.05 (short input, halved): the code has no
sentinel case, no mfg term, no per-item ingredient count, and no
short-input penalty. -/
theorem compute_confidence_counterexample :
    compute_confidence
        (str "a very long front text of more than fifty characters in total!")
        (str "") sentinelOnly = 2/5 ∧
      spec_compute_confidence
        (str "a very long front text of more than fifty characters in total!")
        (str "") sentinelOnly = 1/10 ∧
      compute_confidence (str "") (str "") sentinelOnly = 2/5 ∧
      spec_compute_confidence (str "") (str "") sentinelOnly = 1/20 ∧
      (2/5 : ℚ) ≠ 1/10 := by
  have hp : truthyKey sentinelOnly (str "product_name") = true := rfl
  have hb : truthyKey sentinelOnly (str "brand") = false := rfl
  have he : truthyKey sentinelOnly (str "expiry_date") = false := rfl
  have hm : truthyKey sentinelOnly (str "mfg_date") = false := rfl
  have hi : truthyKey sentinelOnly (str "ingredients") = false := rfl
  have hw : truthyKey sentinelOnly (str "warnings") = false := rfl
  have hsent : spec_sentinel sentinelOnly = true := rfl
  have hing : spec_ingredient_count sentinelOnly = 0 := rfl
  refine ⟨?_, ?_, ?_, ?_, by norm_num⟩
  · unfold compute_confidence
    rw [hp, hb, he, hi, hw]
    norm_num
  · unfold spec_compute_confidence spec_score
    rw [hp, hb, he, hm, hw, hsent, hing]
    rw [if_neg (show ¬((str "a very long front text of more than fifty characters in total!").length
      + (str "").length < 50) from by decide)]
    norm_num
  · unfold compute_confidence
    rw [hp, hb, he, hi, hw]
    norm_num
  · unfold spec_compute_confidence spec_score
    rw [hp, hb, he, hm, hw, hsent, hing]
    rw [if_pos (show ((str "").length + (str "").length < 50) from by decide)]
    norm_num

end ExtractPipeline

namespace ExtractPipeline

/-- C3 (amended): the source's confidence is 0 without a truthy product
name and otherwise 0.40 + 0.25 brand + 0.20 expiry + 0.10 ingredients
+ 0.05 warnings capped at 1; it never reads the input texts (so there is
no under-50-character halving), never reads the mfg date, stays in
[0, 1], and adding a non-empty brand never decreases it. -/
theorem compute_confidence_characterisation
    (front_text back_text front2 back2 : List Char)
    (extracted : List (List Char × Json)) :
    compute_confidence front_text back_text extracted
        = compute_confidence front2 back2 extracted ∧
      (∀ x : Json, compute_confidence front_text back_text
          (pyDictSet extracted (str "mfg_date") x)
        = compute_confidence front_text back_text extracted) ∧
      0 ≤ compute_confidence front_text back_text extracted ∧
      compute_confidence front_text back_text extracted ≤ 1 ∧
      (∀ s : List Char, s ≠ [] →
        compute_confidence front_text back_text extracted ≤
          compute_confidence front_text back_text
            (pyDictSet extracted (str "brand") (Json.str s))) := by
  have hkey : ∀ (k k' : List Char) (x : Json), k' ≠ k →
      truthyKey (pyDictSet extracted k x) k' = truthyKey extracted k' := by
    intro k k' x hk
    unfold truthyKey
    rw [pyDictGet_set_ne hk]
  refine ⟨rfl, ?_, ?_, ?_, ?_⟩
  · intro x
    unfold compute_confidence
    rw [hkey (str "mfg_date") (str "product_name") x (by decide),
      hkey (str "mfg_date") (str "brand") x (by decide),
      hkey (str "mfg_date") (str "expiry_date") x (by decide),
      hkey (str "mfg_date") (str "ingredients") x (by decide),
      hkey (str "mfg_date") (str "warnings") x (by decide)]
  · unfold compute_confidence
    by_cases h : (!truthyKey extracted (str "product_name")) = true
    · rw [if_pos h]
    · rw [if_neg h]
      refine le_min ?_ (by norm_num)
      split_ifs <;> norm_num
  · unfold compute_confidence
    by_cases h : (!truthyKey extracted (str "product_name")) = true
    · rw [if_pos h]; norm_num
    · rw [if_neg h]; exact min_le_right _ _
  · intro s hs
    unfold compute_confidence
    have hbrand : truthyKey (pyDictSet extracted (str "brand") (Json.str s)) (str "brand")
        = true := by
      unfold truthyKey
      rw [pyDictGet_set_eq]
      simpa [pyTruthy] using hs
    rw [hbrand, hkey (str "brand") (str "product_name") (Json.str s) (by decide),
      hkey (str "brand") (str "expiry_date") (Json.str s) (by decide),
      hkey (str "brand") (str "ingredients") (Json.str s) (by decide),
      hkey (str "brand") (str "warnings") (Json.str s) (by decide)]
    by_cases hp : truthyKey extracted (str "product_name") = true
    · rw [hp]
      simp only [Bool.not_true, if_false]
      apply min_le_min _ le_rfl
      split_ifs <;> norm_num
    · rw [Bool.not_eq_true] at hp
      rw [hp]
      simp

/-- Witness for the amended C3. -/
theorem compute_confidence_characterisation_witness :
    compute_confidence (str "f") (str "b") sentinelOnly ≤
      compute_confidence (str "f") (str "b")
        (pyDictSet sentinelOnly (str "brand") (Json.str (str "DOVE"))) :=
  (compute_confidence_characterisation (str "f") (str "b") (str "x") (str "y")
    sentinelOnly).2.2.2.2 (str "DOVE") (by decide)

end ExtractPipeline

namespace Gemini

/-- C4 counterexample: a response whose ingredients array is truncated
mid-string is not repaired -- the single direct parse fails and the
whole pass collapses to the all-null dictionary, with an empty
ingredients list instead of the claimed recovered prefix. -/
theorem processGeminiText_counterexample :
    processGeminiText
        (str "\x7b\"product_name\": \"X\", \"ingredients\": [\"a\", \"b\", \"wat")
      = nullGemini ∧
    pyDictGet nullGemini (str "ingredients") = some (Json.arr []) ∧
    Json.arr [] ≠ Json.arr [Json.str (str "a"), Json.str (str "b")] := by
  refine ⟨rfl, rfl, by simp⟩

/-- C4 (amended): the Tier-1 response handling consists exactly of
markdown-fence unwrapping followed by a single direct `json.loads`; a
response parsing to a JSON object is returned unchanged except that the
`ingredients`/`warnings` entries are coerced to lists, and any response
the direct parse rejects (truncated, preamble-wrapped, or non-object)
makes the whole pass fail to the all-null dictionary -- there are no
repair strategies. -/
theorem processGeminiText_direct_parse_only (resp : List Char) :
    (∀ kvs, JsonParse.json_loads (fenceStrip resp) = some (Json.obj kvs) →
      processGeminiText resp = ensureArrays kvs) ∧
    (JsonParse.json_loads (fenceStrip resp) = none →
      processGeminiText resp = nullGemini) ∧
    processGeminiText
        (str "\x7b\"product_name\": \"X\", \"ingredients\": [\"Water\", \"Glycerin\"]\x7d")
      = [(str "product_name", Json.str (str "X")),
         (str "ingredients", Json.arr [Json.str (str "Water"), Json.str (str "Glycerin")]),
         (str "warnings", Json.arr [])] := by
  refine ⟨?_, ?_, rfl⟩
  · intro kvs h
    unfold processGeminiText
    rw [h]
  · intro h
    unfold processGeminiText
    rw [h]

/-- Witness for the amended C4 on a fenced valid object. -/
theorem processGeminiText_direct_parse_only_witness :
    processGeminiText (str "```json\n\x7b\"brand\": \"B\"\x7d\n```")
      = ensureArrays [(str "brand", Json.str (str "B"))] :=
  (processGeminiText_direct_parse_only (str "```json\n\x7b\"brand\": \"B\"\x7d\n```")).1
    [(str "brand", Json.str (str "B"))] rfl

end Gemini

/-! ## OCR engine (src/backend/services/ocr.py, SimpleOCRClient). The
external recognizer (pytesseract) and image decoding (PIL) are oracle
fields of an environment record. -/

namespace Ocr

structure OcrEnv (Img : Type) where
  decode : List ℕ → Option Img
  mode : Img → List Char
  convertRGB : Img → Img
  tess : Img → List Char → List Char

/-- The single fixed Tesseract configuration of `SimpleOCRClient`:
fully automatic page segmentation, LSTM+legacy engine. -/
def tesseractConfig : List Char := str "--psm 3 --oem 3"

/-- `preprocess_image`: decode, convert to RGB when needed, no other
processing. -/
def preprocess_image {Img : Type} (env : OcrEnv Img) (image_bytes : List ℕ) : Option Img :=
  match env.decode image_bytes with
  | none => none
  | some image => some (if env.mode image = str "RGB" then image else env.convertRGB image)

/-- `SimpleOCRClient.extract_text`: one recognition pass, stripped; a
decode failure raises `RuntimeError` (the `Except.error` case). Also
returns the list of configurations the recognizer was invoked with. -/
def extract_text {Img : Type} (env : OcrEnv Img) (image_bytes : List ℕ) :
    Except (List Char) (List Char) × List (List Char) :=
  match preprocess_image env image_bytes with
  | none => (Except.error (str "OCR extraction failed"), [])
  | some image => (Except.ok (pyStrip (env.tess image tesseractConfig)), [tesseractConfig])

/-- Claim-side gibberish filter, modelled from the spec's words (the
spec's "small deny-list of symbols" is represented by a small concrete
set; the counterexample below is insensitive to its exact contents):
reject text under 8 characters, letter-ratio below 0.55, special-char
ratio above 0.20, over-40-char text with fewer than 2 spaces, or more
than 5% non-ASCII/deny-listed characters. -/
def spec_is_valid_text (t : List Char) : Bool :=
  let total := t.length
  let letters := (t.filter pyIsAlpha).length
  let special := (t.filter (fun c => !pyIsAlnum c && !pyIsSpace c)).length
  let spaces := (t.filter (fun c => c == ' ')).length
  let nonAscii := (t.filter (fun c => decide (128 ≤ c.toNat) || c == '|' || c == '~')).length
  !(decide (total < 8)) && decide (55 * total ≤ 100 * letters) &&
    decide (100 * special ≤ 20 * total) &&
    !(decide (40 < total) && decide (spaces < 2)) &&
    decide (20 * nonAscii ≤ total)

/-- A recognizer that reports confident-looking noise. -/
def gibberishEnv : OcrEnv Unit :=
  { decode := fun _ => some ()
    mode := fun _ => str "RGB"
    convertRGB := fun i => i
    tess := fun _ _ => str "#$%@#$%@" }

/-- C5 counterexample: there is no tiered retry and no validity filter:
the single `--psm 3 --oem 3` pass's output is returned as-is even though
it fails the claimed gibberish filter (letter-ratio 0), instead of the
claimed retries and empty-string fallback. -/
theorem extract_text_counterexample :
    extract_text gibberishEnv [0] = (Except.ok (str "#$%@#$%@"), [str "--psm 3 --oem 3"]) ∧
    spec_is_valid_text (str "#$%@#$%@") = false ∧
    str "#$%@#$%@" ≠ [] := by
  refine ⟨rfl, by decide, by decide⟩

/-- C5 (amended): the default engine performs exactly one recognition
pass, in fully-automatic-segmentation mode (`--psm 3 --oem 3`), and
returns its stripped output unconditionally; a decode failure surfaces
as an error with no recognition call. -/
theorem extract_text_single_pass {Img : Type} (env : OcrEnv Img) (image_bytes : List ℕ) :
    (∀ image, env.decode image_bytes = some image →
      extract_text env image_bytes =
        (Except.ok (pyStrip (env.tess
          (if env.mode image = str "RGB" then image else env.convertRGB image)
          tesseractConfig)), [tesseractConfig])) ∧
    (env.decode image_bytes = none →
      extract_text env image_bytes = (Except.error (str "OCR extraction failed"), [])) := by
  constructor
  · intro image h
    unfold extract_text preprocess_image
    rw [h]
  · intro h
    unfold extract_text preprocess_image
    rw [h]

/-- Witness for the amended C5. -/
theorem extract_text_single_pass_witness :
    extract_text gibberishEnv [0] =
      (Except.ok (pyStrip (gibberishEnv.tess
        (if gibberishEnv.mode () = str "RGB" then () else gibberishEnv.convertRGB ())
        tesseractConfig)), [tesseractConfig]) :=
  (extract_text_single_pass gibberishEnv [0]).1 () rfl

end Ocr

/-! ## Quality gate and pipeline orchestrator
(src/backend/services/image_validator.py, src/backend/services/pipeline.py).
PIL decoding and the cv2 statistics are an oracle: a decode either fails
with a message or yields the pixel rows together with the grayscale
statistics the validator thresholds. -/

namespace Pipeline

structure ImgData (Row : Type) where
  h : ℕ
  w : ℕ
  lapVar : ℚ
  meanGray : ℚ
  stdGray : ℚ
  rows : List Row

structure PipelineEnv (Row : Type) where
  decode : List ℕ → Except (List Char) (ImgData Row)
  ocr : List Row → List Char
  model : Option (List Char → List Char)
  utcnow : List Char

structure ValidationReport where
  is_valid : Bool
  issues : List (List Char)
  resolution : Option (ℕ × ℕ)
  blur_score : Option ℚ
  brightness : Option ℚ
  contrast : Option ℚ
  feedback : List Char

/-- `ImageValidator.validate`: never raises; decode failure yields a
single decode-error issue; otherwise the four threshold checks append
their issues in order and `is_valid` is emptiness of that list. -/
def validate {Row : Type} (env : PipelineEnv Row) (image_bytes : List ℕ) :
    ValidationReport :=
  match env.decode image_bytes with
  | Except.error e =>
    { is_valid := false
      issues := [str "Cannot read image: " ++ e]
      resolution := none, blur_score := none, brightness := none, contrast := none
      feedback := str "❌ " ++ e }
  | Except.ok m =>
    let issues0 := if m.h * m.w < 720 * 720 then [str "Image resolution too low - move closer"] else []
    let blur : ℚ := min (m.lapVar / 500) 1
    let issues1 := issues0 ++ (if blur < 1/10 then [str "Image is blurry - hold camera steady"] else [])
    let brightness : ℚ := m.meanGray / 255
    let issues2 := issues1 ++
      (if brightness < 2/25 then [str "Too dark - move to better lighting"]
       else if brightness > 49/50 then [str "Too bright or washed out - reduce glare"] else [])
    let contrast : ℚ := m.stdGray / 255
    let issues3 := issues2 ++ (if contrast < 1/20 then [str "Low contrast - improve lighting angle"] else [])
    { is_valid := issues3.isEmpty
      issues := issues3
      resolution := some (m.h, m.w)
      blur_score := some blur
      brightness := some brightness
      contrast := some contrast
      feedback := if issues3.isEmpty then str "✅ Image quality acceptable"
        else List.intercalate (str " | ") issues3 }

structure ProcessResult where
  product_name : Json
  brand : Json
  expiry_date : Json
  mfg_date : Json
  ingredients : Json
  warnings : Json
  confidence : ℚ
  failure_reason : Option (List Char)
  summary : Option (List Char)
  scannedAt : Option (List Char)
  validation : Option ValidationReport

/-- The initial all-null result dictionary of `process`. -/
def initResult : ProcessResult :=
  { product_name := Json.null, brand := Json.null, expiry_date := Json.null,
    mfg_date := Json.null, ingredients := Json.arr [], warnings := Json.arr [],
    confidence := 0, failure_reason := none, summary := none, scannedAt := none,
    validation := none }

/-- `LabelVisionPipeline.process` (the trace of region shapes and text
lengths, pure observability, is not carried): validation (advisory),
decode, region split, three per-region OCR calls, early "no text"
return, cleaning, extraction, validation penalty. Returns the result
with the number of OCR calls and of external-service calls; every
exception path of the source is a structured return here, so the
function is total. -/
def process {Row : Type} (env : PipelineEnv Row) (image_bytes : List ℕ) :
    ProcessResult × ℕ × ℕ :=
  let validation := validate env image_bytes
  let validation_penalty : ℚ := if validation.is_valid then 0 else 3/10
  match env.decode image_bytes with
  | Except.error e =>
    ({ initResult with failure_reason := some e, validation := some validation }, 0, 0)
  | Except.ok m =>
    let regions := RegionSplitter.split m.rows
    let front_ocr := env.ocr regions.front_region
    let back_ocr := env.ocr regions.back_region
    let full_ocr := env.ocr regions.full_image
    if (pyStrip full_ocr).length < 5 then
      ({ initResult with
          failure_reason := some (str "Label text could not be detected. Please try a clearer image.")
          validation := some validation }, 3, 0)
    else
      let front_text := TextCleaner.clean_block front_ocr
      let back_text := TextCleaner.clean_block back_ocr
      let ex := ExtractPipeline.extract_from_pipeline env.model env.utcnow
        front_text back_text (some full_ocr)
      let conf := if validation_penalty > 0 then max 0 (ex.1.confidence - validation_penalty)
        else ex.1.confidence
      ({ product_name := ex.1.product_name, brand := ex.1.brand,
         expiry_date := ex.1.expiry_date, mfg_date := ex.1.mfg_date,
         ingredients := ex.1.ingredients, warnings := ex.1.warnings,
         confidence := conf, failure_reason := none,
         summary := ex.1.summary, scannedAt := ex.1.scannedAt,
         validation := some validation }, 3, ex.2)

end Pipeline

namespace Pipeline

/-- An environment whose byte buffer cannot be decoded, while the
recognizer would have had plenty to say. -/
def badDecodeEnv : PipelineEnv Unit :=
  { decode := fun _ => Except.error (str "cannot identify image file")
    ocr := fun _ => str "PLENTY OF TEXT HERE"
    model := none
    utcnow := str "2026-01-01T00:00:00" }

/-- C6 counterexample: on an undecodable buffer the validator reports a
single decode issue, but the pipeline does not continue to OCR -- its
own `Image.open` raises first and the catch-all returns a structured
failure with zero OCR calls, contradicting the claim's "still continues
to OCR". -/
theorem process_counterexample :
    (process badDecodeEnv [0, 1]).2.1 = 0 ∧
    (validate badDecodeEnv [0, 1]).is_valid = false ∧
    (validate badDecodeEnv [0, 1]).issues.length = 1 ∧
    (process badDecodeEnv [0, 1]).1.failure_reason = some (str "cannot identify image file") := by
  refine ⟨rfl, rfl, rfl, rfl⟩

/-- C6 (amended): the Quality Gate never raises and reports
`is_valid` true exactly when its issues list is empty; an undecodable
buffer yields `is_valid = false` with exactly the one decode-error
issue, and the pipeline then returns a structured failure result without
raising -- but it performs zero OCR calls, because its own image load
fails before the OCR stage. -/
theorem validate_report_and_no_ocr {Row : Type} (env : PipelineEnv Row)
    (image_bytes : List ℕ) :
    ((validate env image_bytes).is_valid = true ↔ (validate env image_bytes).issues = []) ∧
    (∀ e, env.decode image_bytes = Except.error e →
      (validate env image_bytes).is_valid = false ∧
      (validate env image_bytes).issues = [str "Cannot read image: " ++ e] ∧
      (process env image_bytes).2.1 = 0 ∧
      (process env image_bytes).1.failure_reason = some e ∧
      (process env image_bytes).1.confidence = 0) := by
  constructor
  · cases hd : env.decode image_bytes with
    | error e => simp [validate, hd]
    | ok m =>
      simp only [validate, hd]
      exact List.isEmpty_iff
  · intro e he
    refine ⟨?_, ?_, ?_, ?_, ?_⟩
    · simp [validate, he]
    · simp [validate, he]
    · simp [process, he]
    · simp [process, he]
    · simp [process, he, initResult]

/-- Witness for the amended C6 at the concrete undecodable buffer. -/
theorem validate_report_and_no_ocr_witness :
    (validate badDecodeEnv [0, 1]).is_valid = false ∧
    (validate badDecodeEnv [0, 1]).issues =
      [str "Cannot read image: " ++ str "cannot identify image file"] ∧
    (process badDecodeEnv [0, 1]).2.1 = 0 ∧
    (process badDecodeEnv [0, 1]).1.failure_reason = some (str "cannot identify image file") ∧
    (process badDecodeEnv [0, 1]).1.confidence = 0 :=
  (validate_report_and_no_ocr badDecodeEnv [0, 1]).2 (str "cannot identify image file") rfl

end Pipeline
